import Mathlib

/-!
Verification development for the strac_demo S3 sensitive-data scanner.

Shallow embedding notes:
* Python `str` values are modelled as `List Char`; offsets are character
  indices (Python string indices).  The embedding covers the ASCII fragment
  of Python's `re` semantics: `\w`, `\d`, `\s` are ASCII-restricted here,
  which is faithful for all texts handled in the theorems below.
* Python's `re` module is a backtracking engine.  `mtch` returns, in
  backtracking priority order, every end position at which a regex node can
  match starting at a given position; the engine's chosen match is the head
  of that list.  This models chronological backtracking with greedy/lazy
  quantifier preference exactly as CPython's `sre` does for the pattern
  family used by `scanner/utils/detectors.py`.
* The six pattern strings of `PATTERNS` are translated literally into the
  `Re` AST below; `re.IGNORECASE` is reflected by case-folding literal
  letters and letter classes.
-/

namespace StracDemo

/-- ASCII `\d` (the scanner only handles decoded text; ASCII fragment). -/
def isDigitChar (c : Char) : Bool := 48 ≤ c.toNat && c.toNat ≤ 57

/-- ASCII lowercase letter. -/
def isLowerChar (c : Char) : Bool := 97 ≤ c.toNat && c.toNat ≤ 122

/-- ASCII uppercase letter. -/
def isUpperChar (c : Char) : Bool := 65 ≤ c.toNat && c.toNat ≤ 90

/-- ASCII word character for `\b`: letter, digit or underscore. -/
def isWordChar (c : Char) : Bool :=
  isLowerChar c || isUpperChar c || isDigitChar c || c == '_'

/-- ASCII `\s`: space, tab, newline, carriage return, vertical tab, form feed. -/
def isSpaceChar (c : Char) : Bool :=
  c == ' ' || c == '\t' || c == '\n' || c == '\r' || c.toNat == 11 || c.toNat == 12

/-- The class `[ -]` used inside the credit-card pattern. -/
def isSepChar (c : Char) : Bool := c == ' ' || c == '-'

/-- ASCII case folding, used to model `re.IGNORECASE`. -/
def foldLower (c : Char) : Char :=
  if isUpperChar c then Char.ofNat (c.toNat + 32) else c

/-- Case-insensitive literal character class (a literal under `re.IGNORECASE`). -/
def litCI (a : Char) (c : Char) : Bool := foldLower c == foldLower a

/-- `[0-9A-Z]` under `re.IGNORECASE` (so lowercase letters match too). -/
def isUpperAlnumCI (c : Char) : Bool :=
  isDigitChar c || isUpperChar c || isLowerChar c

/-- `[A-Za-z0-9/+=]` (the 40-character secret class). -/
def isB64Char (c : Char) : Bool :=
  isLowerChar c || isUpperChar c || isDigitChar c || c == '/' || c == '+' || c == '='

/-- `['\"]` (optional quote around the secret). -/
def isQuoteChar (c : Char) : Bool := c == '\x27' || c == '"'

/-- `[A-Za-z0-9._%+-]` (email local part). -/
def isEmailLocalChar (c : Char) : Bool :=
  isLowerChar c || isUpperChar c || isDigitChar c ||
  c == '.' || c == '_' || c == '%' || c == '+' || c == '-'

/-- `[A-Za-z0-9.-]` (email domain part). -/
def isEmailDomChar (c : Char) : Bool :=
  isLowerChar c || isUpperChar c || isDigitChar c || c == '.' || c == '-'

/-- `[A-Za-z]` (TLD letters; both cases are already in the class). -/
def isAlphaChar (c : Char) : Bool := isLowerChar c || isUpperChar c

/-- Regex AST covering the constructs used by the six `PATTERNS` entries:
single-character classes, concatenation, counted repetition `{lo,hi}` /
`{lo,}` with greedy or lazy preference (`*`, `*?`, `+`, `?` are special
cases), and the word-boundary assertion `\b`. -/
inductive Re where
  | eps
  | cls (p : Char → Bool)
  | cat (r1 r2 : Re)
  | rep (r : Re) (lo : Nat) (hi : Option Nat) (lzy : Bool)
  | wordB

/-- Is the character at index `i` a word character (`false` off either end)? -/
def isWordAt (T : List Char) (i : Nat) : Bool :=
  match T.get? i with
  | some c => isWordChar c
  | none => false

/-- Python `\b`: a transition between word and non-word (edges count as
non-word). -/
def wordBoundary (T : List Char) (i : Nat) : Bool :=
  (if i = 0 then false else isWordAt T (i - 1)) != isWordAt T i

/-- All end positions of matching the body exactly `k` more times, in
backtracking priority order (`f` matches the body once from a position). -/
def mtchTimes (f : Nat → List Nat) : Nat → Nat → List Nat
  | 0, i => [i]
  | k + 1, i => (f i).flatMap (fun j => mtchTimes f k j)

/-- All end positions of matching the body between zero and `fuel` more
times.  Greedy preference emits longer expansions first, lazy preference
emits the current position first.  The fuel is exact for bounded
repetitions and a safe overapproximation (remaining input length) for
unbounded ones, whose bodies in all six patterns consume at least one
character per iteration. -/
def mtchOpt (f : Nat → List Nat) (lzy : Bool) : Nat → Nat → List Nat
  | 0, i => [i]
  | fuel + 1, i =>
    let conts := (f i).flatMap (fun j => mtchOpt f lzy fuel j)
    if lzy then i :: conts else conts ++ [i]

/-- Fuel for the optional part of a repetition. -/
def repFuel (T : List Char) (lo : Nat) (hi : Option Nat) : Nat :=
  match hi with
  | some h => h - lo
  | none => T.length + 1

/-- The backtracking matcher: every end position at which `r` matches `T`
starting at position `i`, in priority order.  The engine's match is the
head of the list. -/
def mtch (T : List Char) : Re → Nat → List Nat
  | .eps, i => [i]
  | .cls p, i =>
    match T.get? i with
    | some c => if p c then [i + 1] else []
    | none => []
  | .cat r1 r2, i => (mtch T r1 i).flatMap (fun j => mtch T r2 j)
  | .rep r lo hi lzy, i =>
    (mtchTimes (mtch T r) lo i).flatMap (fun j => mtchOpt (mtch T r) lzy (repFuel T lo hi) j)
  | .wordB, i => if wordBoundary T i then [i] else []

/-- Leftmost search: try each start position from `i` on, returning the
first (start, end) pair, as `re`'s scanner does. -/
def firstMatchAux (T : List Char) (r : Re) : Nat → Nat → Option (Nat × Nat)
  | 0, _ => none
  | fuel + 1, i =>
    if T.length < i then none
    else
      match mtch T r i with
      | e :: _ => some (i, e)
      | [] => firstMatchAux T r fuel (i + 1)

/-- Leftmost match at or after position `i`. -/
def firstMatch (T : List Char) (r : Re) (i : Nat) : Option (Nat × Nat) :=
  firstMatchAux T r (T.length + 1) i

/-- `finditer` worker: collect successive non-overlapping matches, resuming
at each match end (one past it for an empty match, as CPython does). -/
def findIterAux (T : List Char) (r : Re) : Nat → Nat → List (Nat × Nat)
  | 0, _ => []
  | fuel + 1, i =>
    match firstMatch T r i with
    | none => []
    | some (s, e) => (s, e) :: findIterAux T r fuel (if e ≤ s then s + 1 else e)

/-- `re.finditer(pattern, T)` as a span list. -/
def finditer (T : List Char) (r : Re) : List (Nat × Nat) :=
  findIterAux T r (T.length + 2) 0

/-- Right-fold a nonempty concatenation list into the AST. -/
def catList : List Re → Re
  | [] => .eps
  | [r] => r
  | r :: rs => .cat r (catList rs)

/-- A case-insensitive literal word (e.g. `aws_secret_access_key`). -/
def litWord (s : List Char) : List Re := s.map (fun a => .cls (litCI a))

/-- `\b\d{3}-\d{2}-\d{4}\b` (ssn). -/
def ssnRe : Re :=
  catList [.wordB, .rep (.cls isDigitChar) 3 (some 3) false, .cls (litCI '-'),
    .rep (.cls isDigitChar) 2 (some 2) false, .cls (litCI '-'),
    .rep (.cls isDigitChar) 4 (some 4) false, .wordB]

/-- The body `\d[ -]*?` of the credit-card repetition. -/
def ccBody : Re := .cat (.cls isDigitChar) (.rep (.cls isSepChar) 0 none true)

/-- `\b(?:\d[ -]*?){13,16}\b` (credit_card). -/
def creditCardRe : Re :=
  catList [.wordB, .rep ccBody 13 (some 16) false, .wordB]

/-- `AKIA[0-9A-Z]{16}` (aws_key; `re.IGNORECASE` applies). -/
def awsKeyRe : Re :=
  catList (litWord ("AKIA").data ++ [.rep (.cls isUpperAlnumCI) 16 (some 16) false])

/-- `aws_secret_access_key\s*=\s*['\"]?([A-Za-z0-9/+=]{40})['\"]?` (aws_secret). -/
def awsSecretRe : Re :=
  catList (litWord ("aws_secret_access_key").data ++
    [.rep (.cls isSpaceChar) 0 none false, .cls (litCI '='),
     .rep (.cls isSpaceChar) 0 none false, .rep (.cls isQuoteChar) 0 (some 1) false,
     .rep (.cls isB64Char) 40 (some 40) false, .rep (.cls isQuoteChar) 0 (some 1) false])

/-- `[A-Za-z0-9._%+-]+@[A-Za-z0-9.-]+\.[A-Za-z]{2,}` (email). -/
def emailRe : Re :=
  catList [.rep (.cls isEmailLocalChar) 1 none false, .cls (litCI '@'),
    .rep (.cls isEmailDomChar) 1 none false, .cls (litCI '.'),
    .rep (.cls isAlphaChar) 2 none false]

/-- `\(?\d{3}\)?[ -]?\d{3}[ -]?\d{4}` (phone_us). -/
def phoneUsRe : Re :=
  catList [.rep (.cls (litCI '(')) 0 (some 1) false, .rep (.cls isDigitChar) 3 (some 3) false,
    .rep (.cls (litCI ')')) 0 (some 1) false, .rep (.cls isSepChar) 0 (some 1) false,
    .rep (.cls isDigitChar) 3 (some 3) false, .rep (.cls isSepChar) 0 (some 1) false,
    .rep (.cls isDigitChar) 4 (some 4) false]

/-! ### Luhn validation (`Detector._luhn_check`) -/

/-- Numeric value of an ASCII digit character (`int(d)`). -/
def digitVal (c : Char) : Nat := c.toNat - 48

/-- The generator inside `luhn_sum`: enumerate the reversed digit string;
even indices are added as-is, odd indices are doubled and `divmod(·, 10)`
is summed. -/
def luhnSumAux : List Nat → Nat → Nat
  | [], _ => 0
  | d :: ds, i =>
    (if i % 2 = 0 then d else d * 2 / 10 + d * 2 % 10) + luhnSumAux ds (i + 1)

/-- `luhn_sum(n)` from `Detector._luhn_check`. -/
def luhn_sum (n : List Char) : Nat := luhnSumAux (n.reverse.map digitVal) 0

/-- `Detector._luhn_check`: at least 13 digits and a mod-10 checksum of 0. -/
def luhn_check (card_number : List Char) : Bool :=
  13 ≤ card_number.length && luhn_sum card_number % 10 == 0

/-- `re.sub(r'[^\d]', '', s)`: strip every non-digit character. -/
def stripNonDigits (s : List Char) : List Char := s.filter isDigitChar

/-- The claim's reference Luhn step: the decimal digit sum of a doubled
digit (doubled values are at most 18, so this is `n` itself below ten and
`n - 9` otherwise). -/
def decimalDigitSum (n : Nat) : Nat := if n < 10 then n else n - 9

/-- The reference Luhn check as worded in the specification: starting from
the rightmost digit, double every second digit, sum the decimal digits of
the doubled values, add the untouched digits, and require the total to be
divisible by ten.  (Stated over the digit characters of the candidate.) -/
def referenceLuhn (digits : List Char) : Bool :=
  (List.sum ((digits.reverse.enum).map (fun p =>
    if p.1 % 2 = 1 then decimalDigitSum (digitVal p.2 * 2) else digitVal p.2))) % 10 == 0

/-! ### `Detector.detect` -/

/-- Python slice `T[a:b]` for `0 ≤ a ≤ b` (clamped at the ends). -/
def pySlice (T : List Char) (a b : Nat) : List Char := (T.take b).drop a

/-- Python slice `s[-n:]`: the last `n` characters (all of `s` if shorter). -/
def lastN (n : Nat) (s : List Char) : List Char := s.drop (s.length - n)

/-- One finding record as built by `Detector.detect` (dictionary with
`detector`, `masked_match`, `context`, `byte_offset`). -/
structure Finding where
  detector : String
  masked_match : List Char
  context : List Char
  byte_offset : Nat
  deriving DecidableEq, Repr

/-- The mask branch of `Detector.detect` for a raw matched text. -/
def maskFor (pattern_name : String) (matched_text : List Char) : List Char :=
  if pattern_name == "ssn" then
    if 4 ≤ matched_text.length then ("XXX-XX-").data ++ lastN 4 matched_text
    else ("XXX-XX-XXXX").data
  else if pattern_name == "credit_card" then
    if 4 ≤ matched_text.length then ("****-****-****-").data ++ lastN 4 matched_text
    else ("****-****-****-****").data
  else if pattern_name == "aws_key" then
    if 8 < matched_text.length then
      matched_text.take 4 ++ ("...").data ++ lastN 4 matched_text
    else ("AKIA****").data
  else ("***MASKED***").data

/-- The credit-card post-validation of `Detector.detect`: strip separators,
require 13-16 digits, and pass `_luhn_check`; any other kind is accepted. -/
def spanAccepted (pattern_name : String) (T : List Char) (s e : Nat) : Bool :=
  if pattern_name == "credit_card" then
    let digits := stripNonDigits (pySlice T s e)
    if digits.length < 13 || 16 < digits.length then false
    else luhn_check digits
  else true

/-- The per-pattern `for match in matches` loop: stop once `count` reaches
`max_matches_per_type`; a span failing credit-card validation is skipped
without incrementing `count`. -/
def acceptSpans (pattern_name : String) (T : List Char) (maxM : Nat) :
    List (Nat × Nat) → Nat → List (Nat × Nat)
  | [], _ => []
  | (s, e) :: ms, count =>
    if maxM ≤ count then []
    else if spanAccepted pattern_name T s e then
      (s, e) :: acceptSpans pattern_name T maxM ms (count + 1)
    else acceptSpans pattern_name T maxM ms count

/-- Build the finding for an accepted span, paired with the loop's local
`matched_text` (`match.group(0)`, which `re` guarantees to be the slice of
the subject at the match span). -/
def findingOf (T : List Char) (ctxChars : Nat) (pattern_name : String)
    (span : Nat × Nat) : Finding × List Char :=
  let matched_text := pySlice T span.1 span.2
  ({ detector := pattern_name
     masked_match := maskFor pattern_name matched_text
     context := pySlice T (span.1 - ctxChars) (min T.length (span.2 + ctxChars))
     byte_offset := span.1 }, matched_text)

/-- All findings of one pattern, each paired with its raw matched text. -/
def detectKindRaw (T : List Char) (maxM ctxChars : Nat) (pattern_name : String)
    (r : Re) : List (Finding × List Char) :=
  (acceptSpans pattern_name T maxM (finditer T r) 0).map
    (findingOf T ctxChars pattern_name)

/-- The `PATTERNS` table in its source order. -/
def patternList : List (String × Re) :=
  [("ssn", ssnRe), ("credit_card", creditCardRe), ("aws_key", awsKeyRe),
   ("aws_secret", awsSecretRe), ("email", emailRe), ("phone_us", phoneUsRe)]

/-- `Detector.detect` keeping each finding's raw matched text. -/
def detectRaw (T : List Char) (maxM ctxChars : Nat) : List (Finding × List Char) :=
  (patternList.map (fun p => detectKindRaw T maxM ctxChars p.1 p.2)).flatten

/-- `Detector.detect(content, max_matches_per_type, context_chars)`.
The source defaults are `max_matches_per_type = 10`, `context_chars = 50`. -/
def detect (T : List Char) (maxM ctxChars : Nat) : List Finding :=
  (detectRaw T maxM ctxChars).map Prod.fst

/-! ### Worker decode step (`BatchProcessor.download_and_scan`) -/

/-- A raw byte of a downloaded object body. -/
abbrev Byte := Fin 256

/-- Is a byte a UTF-8 continuation byte (`0x80..0xBF`)? -/
def isContByte (b : Byte) : Bool := 128 ≤ b.val && b.val ≤ 191

/-- Strict UTF-8 decoding (`content.decode('utf-8')`): rejects truncated
sequences, stray continuation bytes, overlong encodings, surrogate code
points and values above `U+10FFFF`, exactly as CPython's strict codec. -/
def utf8Decode : List Byte → Option (List Nat)
  | [] => some []
  | b :: rest =>
    if b.val ≤ 127 then (utf8Decode rest).map (fun cs => b.val :: cs)
    else if b.val ≤ 193 then none
    else if b.val ≤ 223 then
      match rest with
      | b2 :: rest2 =>
        if isContByte b2 then
          (utf8Decode rest2).map (fun cs => ((b.val - 192) * 64 + (b2.val - 128)) :: cs)
        else none
      | [] => none
    else if b.val ≤ 239 then
      match rest with
      | b2 :: b3 :: rest3 =>
        if isContByte b2 && isContByte b3
            && (b.val != 224 || 160 ≤ b2.val) && (b.val != 237 || b2.val ≤ 159) then
          (utf8Decode rest3).map (fun cs =>
            ((b.val - 224) * 4096 + (b2.val - 128) * 64 + (b3.val - 128)) :: cs)
        else none
      | _ => none
    else if b.val ≤ 244 then
      match rest with
      | b2 :: b3 :: b4 :: rest4 =>
        if isContByte b2 && isContByte b3 && isContByte b4
            && (b.val != 240 || 144 ≤ b2.val) && (b.val != 244 || b2.val ≤ 143) then
          (utf8Decode rest4).map (fun cs =>
            ((b.val - 240) * 262144 + (b2.val - 128) * 4096 + (b3.val - 128) * 64 + (b4.val - 128)) :: cs)
        else none
      | _ => none
    else none

/-- `content.decode('latin-1')`: the latin-1 codec maps every byte value
`0..255` to the code point of the same value; it has no error path. -/
def latin1Decode (bs : List Byte) : List Nat := bs.map (fun b => b.val)

/-- The decode step of `download_and_scan`: try UTF-8, on
`UnicodeDecodeError` fall back to latin-1; `none` models reaching the
`"Could not decode file"` branch (both decoders raising). -/
def decodeContent (bs : List Byte) : Option (List Nat) :=
  match utf8Decode bs with
  | some text => some text
  | none => some (latin1Decode bs)

/-- Outcome classification of the non-gated part of `download_and_scan`
for an object body (code points are rendered as characters for `detect`). -/
inductive ScanOutcome where
  | skippedUndecodable
  | succeeded (findings : List Finding)
  deriving Repr

/-- Render decoded code points for the detector (ASCII-faithful). -/
def charsOfCodePoints (cs : List Nat) : List Char :=
  cs.map (fun n => if h : n < 55296 then Char.ofNatAux n (by omega) else Char.ofNat n)

/-- `download_and_scan` after the gate: decode, then run the detector; the
`skippedUndecodable` branch is the one marking the object succeeded with
`last_error = "Could not decode file"`. -/
def scanBody (bs : List Byte) : ScanOutcome :=
  match decodeContent bs with
  | none => .skippedUndecodable
  | some text => .succeeded (detect (charsOfCodePoints text) 10 50)

/-! ### Worker batch acknowledgement (`process_batch` and `main_loop`) -/

/-- The result of `json.loads` on a message body: either a decode error or
a dictionary whose `job_id`/`bucket`/`key` entries may be absent (and may
be empty strings, which Python treats as falsy in `all([...])`). -/
inductive MsgBody where
  | malformed
  | fields (job_id bucket key : Option String) (etag : String)
  deriving DecidableEq, Repr

/-- An SQS message as seen by the worker. -/
structure SqsMessage where
  body : MsgBody
  receiptHandle : String
  deriving DecidableEq, Repr

/-- A parsed task (`tasks.append({...})` in `process_batch`). -/
structure WorkTask where
  job_id : String
  bucket : String
  key : String
  etag : String
  receiptHandle : String
  deriving DecidableEq, Repr

/-- Python truthiness of the envelope fields: `all([job_id, bucket, key])`
fails when a field is absent or an empty string. -/
def truthy : Option String → Bool
  | some s => !s.isEmpty
  | none => false

/-- The parse loop of `process_batch`: malformed bodies and envelopes with
missing `job_id`/`bucket`/`key` are dropped (`continue`). -/
def parseTasks : List SqsMessage → List WorkTask
  | [] => []
  | m :: ms =>
    match m.body with
    | .malformed => parseTasks ms
    | .fields j b k etag =>
      if truthy j && truthy b && truthy k then
        { job_id := j.getD (""), bucket := b.getD (""), key := k.getD (""),
          etag := etag, receiptHandle := m.receiptHandle } :: parseTasks ms
      else parseTasks ms

/-- One `download_and_scan` result as consumed by `main_loop` (the status
string plus the receipt handle `process_batch` attaches to it).  The
processing outcome is abstracted as an environment function from tasks to
status strings, since it depends on S3 and the database. -/
structure ProcResult where
  status : String
  receiptHandle : String
  deriving DecidableEq, Repr

/-- `process_batch`: process the parsed tasks and return one result per
task (modelled in task order; the thread pool's `as_completed` order can
only permute this list, which does not affect the claims below). -/
def process_batch (outcome : WorkTask → String) (messages : List SqsMessage) : List ProcResult :=
  (parseTasks messages).map (fun t => { status := outcome t, receiptHandle := t.receiptHandle })

/-- The acknowledgement selection in `main_loop`: zip the received
messages positionally with the batch results and keep the messages whose
paired result has a terminal status. -/
def messages_to_delete (messages : List SqsMessage) (results : List ProcResult) :
    List SqsMessage :=
  ((messages.zip results).filter (fun p =>
    p.2.status == "succeeded" || p.2.status == "failed" || p.2.status == "skipped")).map
    Prod.fst

/-- One iteration of `main_loop` from receipt to acknowledgement: the set
of messages the worker deletes from the queue. -/
def ackStep (outcome : WorkTask → String) (messages : List SqsMessage) : List SqsMessage :=
  messages_to_delete messages (process_batch outcome messages)

/-! ### Persistence (`scanner/utils/db.py`) -/

/-- A row of the `findings` table. -/
structure FindingRow where
  job_id : String
  bucket : String
  key : String
  etag : String
  detector : String
  masked_match : List Char
  context : List Char
  byte_offset : Nat
  deriving DecidableEq, Repr

/-- The uniqueness key of `ON CONFLICT (bucket, key, etag, detector,
byte_offset) DO NOTHING`. -/
def conflictKey (r : FindingRow) : String × String × String × String × Nat :=
  (r.bucket, r.key, r.etag, r.detector, r.byte_offset)

/-- Insert one row, silently dropped on a conflict with an existing row. -/
def insertRow (table : List FindingRow) (r : FindingRow) : List FindingRow :=
  if table.any (fun q => conflictKey q == conflictKey r) then table else table ++ [r]

/-- The row built from one finding by `Database.insert_findings`
(`f.get("context", "")` defaults; all findings built by `detect` carry a
context). -/
def rowOf (job_id bucket key etag : String) (f : Finding) : FindingRow :=
  { job_id := job_id, bucket := bucket, key := key, etag := etag,
    detector := f.detector, masked_match := f.masked_match,
    context := f.context, byte_offset := f.byte_offset }

/-- `Database.insert_findings`: batch insert with conflict-do-nothing,
returning the new table contents and the function's return value
(`0` for an empty list, otherwise `len(findings)`). -/
def insert_findings (table : List FindingRow) (findings : List Finding)
    (job_id bucket key etag : String) : List FindingRow × Nat :=
  if findings.isEmpty then (table, 0)
  else
    ((findings.map (rowOf job_id bucket key etag)).foldl insertRow table,
     findings.length)

/-- A row of the `job_objects` table (the fields `get_job_stats` reads). -/
structure JobObjectRow where
  job_id : String
  status : String
  findings_count : Int
  deriving DecidableEq, Repr

/-- The statistics record produced by `Database.get_job_stats`.  SQL `SUM`
over zero rows is `NULL`, which psycopg2 maps to `None`; hence the
`Option`.  (`COUNT` is never `NULL`.) -/
structure JobStats where
  queued : Nat
  processing : Nat
  succeeded : Nat
  failed : Nat
  total : Nat
  total_findings : Option Int
  deriving DecidableEq, Repr

/-- SQL `SUM` over a column: `NULL` on an empty input set. -/
def sqlSum (xs : List Int) : Option Int :=
  if xs.isEmpty then none else some (xs.foldl (· + ·) 0)

/-- `Database.get_job_stats`: the aggregate query over `job_objects`
filtered by job id.  An aggregate `SELECT` always yields exactly one row,
so `fetchone()` is never `None` and the source's zero-filled fallback
dictionary is unreachable; the returned record is the aggregate row. -/
def get_job_stats (table : List JobObjectRow) (job_id : String) : JobStats :=
  let rows := table.filter (fun r => r.job_id == job_id)
  { queued := (rows.filter (fun r => r.status == "queued")).length
    processing := (rows.filter (fun r => r.status == "processing")).length
    succeeded := (rows.filter (fun r => r.status == "succeeded")).length
    failed := (rows.filter (fun r => r.status == "failed")).length
    total := rows.length
    total_findings := sqlSum (rows.map (fun r => r.findings_count)) }

/-! ### Job status aggregation (`lambda_api.main.get_job_status`) -/

/-- The fields of the aggregated status object that the claims inspect.
The human-readable `status_message` strings (some are f-strings) are
elided; `status` is an `Option` because the source's `if/elif` chain sets
`result['status']` in no branch for an unrecognized execution state. -/
structure JobStatusView where
  status : Option String
  progress_percent : ℚ
  deriving DecidableEq, Repr

/-- The real-time aggregation path of `get_job_status` (lines 631-731):
given the `job_objects` counters and the Step Functions execution status
(`none` when there is no execution ARN or `describe_execution` failed),
derive the overall status and progress percent.  Python's float division
is modelled exactly over `ℚ`. -/
def get_job_status_view (total succeeded failed : Nat)
    (sf_status : Option String) : JobStatusView :=
  let completed : Nat := succeeded + failed
  let progress : ℚ := if 0 < total then (completed : ℚ) / (total : ℚ) * 100 else 0
  let statusOf : Option String :=
    match sf_status with
    | some s =>
      if s == "RUNNING" then some ("listing")
      else if s == "SUCCEEDED" then
        if total = 0 then some ("completed")
        else if total ≤ completed then some ("completed")
        else some ("processing")
      else if s == "FAILED" then some ("failed")
      else if s == "TIMED_OUT" then some ("failed")
      else if s == "ABORTED" then some ("aborted")
      else none
    | none =>
      if total = 0 then some ("completed")
      else if total ≤ completed then some ("completed")
      else some ("processing")
  { status := statusOf, progress_percent := progress }

/-! ### Findings query (`lambda_api.main.get_results` and `handler`) -/

/-- A stored findings row as read back by `get_results` (only the fields
the claims need: the monotonic `id`, plus the filterable columns). -/
structure ResultRow where
  id : Int
  job_id : String
  bucket : String
  key : String
  deriving DecidableEq, Repr

/-- Python `int(s)` on a string: an optional sign followed by one or more
ASCII digits (the fragment relevant here; Python also strips whitespace
and accepts underscores, which the claims do not exercise).  `none` models
`int(...)` raising `ValueError`. -/
def parseInt : List Char → Option Int
  | [] => none
  | '-' :: ds =>
    if ds ≠ [] && ds.all isDigitChar then
      some (-(ds.foldl (fun n c => n * 10 + (digitVal c : Int)) 0))
    else none
  | '+' :: ds =>
    if ds ≠ [] && ds.all isDigitChar then
      some (ds.foldl (fun n c => n * 10 + (digitVal c : Int)) 0)
    else none
  | ds =>
    if ds.all isDigitChar then
      some (ds.foldl (fun n c => n * 10 + (digitVal c : Int)) 0)
    else none

/-- Python string prefix test used by `key LIKE key + '%'`. -/
def strIsPref (p s : String) : Bool := List.isPrefixOf p.data s.data

/-- The `WHERE` clause of `get_results`: optional equality filters on
`job_id` and `bucket`, prefix filter on `key` (both branches of the
source's `if key.endswith('/')` build the same `LIKE key%` condition), and
`id < cursor` only when the cursor string parses as an integer —
`except ValueError: pass` silently drops the condition otherwise. -/
def rowMatches (job_id bucket key : Option String) (cursorId : Option Int)
    (r : ResultRow) : Bool :=
  (match job_id with | some j => r.job_id == j | none => true) &&
  (match bucket with | some b => r.bucket == b | none => true) &&
  (match key with | some k => strIsPref k r.key | none => true) &&
  (match cursorId with | some cid => r.id < cid | none => true)

/-- Insert into a list sorted by `id` descending. -/
def insertDesc (r : ResultRow) : List ResultRow → List ResultRow
  | [] => [r]
  | q :: qs => if q.id ≤ r.id then r :: q :: qs else q :: insertDesc r qs

/-- Sort rows by `id` descending (`ORDER BY id DESC`; ids are unique). -/
def sortByIdDesc : List ResultRow → List ResultRow
  | [] => []
  | r :: rs => insertDesc r (sortByIdDesc rs)

/-- The response of `get_results` (fields the claims inspect). -/
structure ResultsPage where
  findings : List ResultRow
  total : Nat
  deriving DecidableEq, Repr

/-- `get_results` in cursor mode (a non-empty `cursor` string was passed):
parse the cursor leniently, apply the filters, count the total under the
same filter, and return the first `limit` rows ordered by id descending. -/
def get_results_cursor (table : List ResultRow) (job_id bucket key : Option String)
    (limit : Nat) (cursor : String) : ResultsPage :=
  let cursorId := parseInt cursor.data
  let rows := (sortByIdDesc table).filter (rowMatches job_id bucket key cursorId)
  { findings := rows.take limit, total := rows.length }

/-- The status code produced by the `GET /results` route of `handler`
(lines 932-948): `int()` conversion of a non-empty `limit` or `offset`
query parameter raising `ValueError` propagates to the outer handler and
becomes a 500; every other path reaches `get_results` (which, absent
database failures, returns) and is wrapped in a 200.  The `cursor`
parameter is never converted in the handler and never causes an error in
`get_results`, so the status code does not depend on it at all. -/
def resultsRouteStatus (limitParam offsetParam : Option String) : Nat :=
  match parseInt ((limitParam.getD ("100")).data) with
  | none => 500
  | some _ =>
    match offsetParam with
    | none => 200
    | some off =>
      if off.isEmpty then 200
      else
        match parseInt off.data with
        | none => 500
        | some _ => 200

/-! ### Engine lemmas: matches move forward and stay inside the subject -/

theorem mtchTimes_le (f : Nat → List Nat) (hf : ∀ i e, e ∈ f i → i ≤ e) :
    ∀ k i e, e ∈ mtchTimes f k i → i ≤ e := by
  intro k
  induction k with
  | zero => intro i e he; simp [mtchTimes] at he; omega
  | succ m ih =>
    intro i e he
    simp only [mtchTimes, List.mem_flatMap] at he
    obtain ⟨j, hj, hje⟩ := he
    exact le_trans (hf i j hj) (ih j e hje)

theorem mtchOpt_le (f : Nat → List Nat) (hf : ∀ i e, e ∈ f i → i ≤ e) (lzy : Bool) :
    ∀ fuel i e, e ∈ mtchOpt f lzy fuel i → i ≤ e := by
  intro fuel
  induction fuel with
  | zero => intro i e he; simp [mtchOpt] at he; omega
  | succ m ih =>
    intro i e he
    simp only [mtchOpt] at he
    rcases lzy with _ | _ <;> simp only [if_true, if_false, Bool.false_eq_true,
      List.mem_cons, List.mem_append, List.mem_flatMap] at he
    · rcases he with ⟨j, hj, hje⟩ | he
      · exact le_trans (hf i j hj) (ih j e hje)
      · simp at he; omega
    · rcases he with he | ⟨j, hj, hje⟩
      · omega
      · exact le_trans (hf i j hj) (ih j e hje)

theorem mtch_le (T : List Char) : ∀ r i e, e ∈ mtch T r i → i ≤ e := by
  intro r
  induction r with
  | eps => intro i e he; simp [mtch] at he; omega
  | cls p =>
    intro i e he
    simp only [mtch] at he
    rcases hg : T.get? i with _ | c <;> simp only [hg] at he
    · simp at he
    · split at he <;> simp at he; omega
  | cat r1 r2 ih1 ih2 =>
    intro i e he
    simp only [mtch, List.mem_flatMap] at he
    obtain ⟨j, hj, hje⟩ := he
    exact le_trans (ih1 i j hj) (ih2 j e hje)
  | rep r lo hi lzy ih =>
    intro i e he
    simp only [mtch, List.mem_flatMap] at he
    obtain ⟨j, hj, hje⟩ := he
    exact le_trans (mtchTimes_le _ ih lo i j hj) (mtchOpt_le _ ih lzy _ j e hje)
  | wordB =>
    intro i e he
    simp only [mtch] at he
    split at he <;> simp at he; omega

theorem mtchTimes_le_len (n : Nat) (f : Nat → List Nat)
    (hf : ∀ i e, i ≤ n → e ∈ f i → e ≤ n) :
    ∀ k i e, i ≤ n → e ∈ mtchTimes f k i → e ≤ n := by
  intro k
  induction k with
  | zero => intro i e hi he; simp [mtchTimes] at he; omega
  | succ m ih =>
    intro i e hi he
    simp only [mtchTimes, List.mem_flatMap] at he
    obtain ⟨j, hj, hje⟩ := he
    exact ih j e (hf i j hi hj) hje

theorem mtchOpt_le_len (n : Nat) (f : Nat → List Nat)
    (hf : ∀ i e, i ≤ n → e ∈ f i → e ≤ n) (lzy : Bool) :
    ∀ fuel i e, i ≤ n → e ∈ mtchOpt f lzy fuel i → e ≤ n := by
  intro fuel
  induction fuel with
  | zero => intro i e hi he; simp [mtchOpt] at he; omega
  | succ m ih =>
    intro i e hi he
    simp only [mtchOpt] at he
    rcases lzy with _ | _ <;> simp only [if_true, if_false, Bool.false_eq_true,
      List.mem_cons, List.mem_append, List.mem_flatMap] at he
    · rcases he with ⟨j, hj, hje⟩ | he
      · exact ih j e (hf i j hi hj) hje
      · simp at he; omega
    · rcases he with he | ⟨j, hj, hje⟩
      · omega
      · exact ih j e (hf i j hi hj) hje

theorem mtch_le_len (T : List Char) : ∀ r i e, i ≤ T.length → e ∈ mtch T r i → e ≤ T.length := by
  intro r
  induction r with
  | eps => intro i e hi he; simp [mtch] at he; omega
  | cls p =>
    intro i e hi he
    simp only [mtch] at he
    rcases hg : T.get? i with _ | c <;> simp only [hg] at he
    · simp at he
    · split at he <;> simp at he
      have : i < T.length := by
        by_contra hlt
        rw [List.get?_eq_none.mpr (by omega)] at hg
        cases hg
      omega
  | cat r1 r2 ih1 ih2 =>
    intro i e hi he
    simp only [mtch, List.mem_flatMap] at he
    obtain ⟨j, hj, hje⟩ := he
    exact ih2 j e (ih1 i j hi hj) hje
  | rep r lo hi lzy ih =>
    intro i e hi' he
    simp only [mtch, List.mem_flatMap] at he
    obtain ⟨j, hj, hje⟩ := he
    exact mtchOpt_le_len _ _ ih lzy _ j e (mtchTimes_le_len _ _ ih lo i j hi' hj) hje
  | wordB =>
    intro i e hi he
    simp only [mtch] at he
    split at he <;> simp at he; omega

theorem firstMatchAux_spec (T : List Char) (r : Re) :
    ∀ fuel i s e, firstMatchAux T r fuel i = some (s, e) →
      i ≤ s ∧ s ≤ T.length ∧ e ∈ mtch T r s := by
  intro fuel
  induction fuel with
  | zero => intro i s e h; simp [firstMatchAux] at h
  | succ m ih =>
    intro i s e h
    unfold firstMatchAux at h
    split at h
    · cases h
    · rename_i hlen
      cases hm : mtch T r i with
      | nil =>
        rw [hm] at h
        have := ih (i + 1) s e h
        exact ⟨by omega, this.2⟩
      | cons e0 rest =>
        rw [hm] at h
        simp at h
        obtain ⟨h1, h2⟩ := h
        refine ⟨by omega, by omega, ?_⟩
        rw [← h1, hm, h2]
        simp

theorem findIterAux_spec (T : List Char) (r : Re) :
    ∀ fuel i s e, (s, e) ∈ findIterAux T r fuel i →
      s ≤ T.length ∧ e ∈ mtch T r s := by
  intro fuel
  induction fuel with
  | zero => intro i s e h; simp [findIterAux] at h
  | succ m ih =>
    intro i s e h
    unfold findIterAux at h
    cases hm : firstMatch T r i with
    | none => rw [hm] at h; simp at h
    | some p =>
      obtain ⟨ps, pe⟩ := p
      rw [hm] at h
      simp only [firstMatch] at hm
      simp at h
      rcases h with ⟨h1, h2⟩ | h
      · subst h1; subst h2
        have := firstMatchAux_spec T r _ i s e hm
        exact ⟨this.2.1, this.2.2⟩
      · exact ih _ s e h

/-- Every span reported by `finditer` starts inside the subject, ends no
later than its end, and does not run backwards. -/
theorem finditer_spec (T : List Char) (r : Re) (s e : Nat)
    (h : (s, e) ∈ finditer T r) : s ≤ e ∧ e ≤ T.length := by
  have h2 := findIterAux_spec T r _ 0 s e h
  exact ⟨mtch_le T r s e h2.2, mtch_le_len T r s e h2.1 h2.2⟩

/-! ### Lemmas about the `detect` loop -/

theorem acceptSpans_subset (pattern_name : String) (T : List Char) (maxM : Nat) :
    ∀ ms count s e, (s, e) ∈ acceptSpans pattern_name T maxM ms count → (s, e) ∈ ms := by
  intro ms
  induction ms with
  | nil => intro count s e h; simp [acceptSpans] at h
  | cons m rest ih =>
    intro count s e h
    obtain ⟨ms, me⟩ := m
    unfold acceptSpans at h
    split at h
    · simp at h
    · split at h
      · rcases List.mem_cons.mp h with h | h
        · simp [h]
        · exact List.mem_cons_of_mem _ (ih _ s e h)
      · exact List.mem_cons_of_mem _ (ih _ s e h)

theorem acceptSpans_length (pattern_name : String) (T : List Char) (maxM : Nat) :
    ∀ ms count, (acceptSpans pattern_name T maxM ms count).length ≤ maxM - count := by
  intro ms
  induction ms with
  | nil => intro count; simp [acceptSpans]
  | cons m rest ih =>
    intro count
    obtain ⟨ms', me⟩ := m
    unfold acceptSpans
    split
    · simp
    · rename_i hcount
      split
      · have := ih (count + 1)
        simp only [List.length_cons]
        omega
      · have := ih count
        omega

theorem detectKindRaw_length (T : List Char) (maxM ctxChars : Nat)
    (pattern_name : String) (r : Re) :
    (detectKindRaw T maxM ctxChars pattern_name r).length ≤ maxM := by
  unfold detectKindRaw
  rw [List.length_map]
  have := acceptSpans_length pattern_name T maxM (finditer T r) 0
  omega

theorem detectKindRaw_detector (T : List Char) (maxM ctxChars : Nat)
    (pattern_name : String) (r : Re) :
    ∀ p ∈ detectKindRaw T maxM ctxChars pattern_name r, p.1.detector = pattern_name := by
  intro p hp
  unfold detectKindRaw at hp
  obtain ⟨span, _, hspan⟩ := List.mem_map.mp hp
  rw [← hspan]
  rfl

theorem detectKindRaw_mem (T : List Char) (maxM ctxChars : Nat)
    (pattern_name : String) (r : Re) (p : Finding × List Char)
    (hp : p ∈ detectKindRaw T maxM ctxChars pattern_name r) :
    ∃ s e, (s, e) ∈ finditer T r ∧ p = findingOf T ctxChars pattern_name (s, e) := by
  unfold detectKindRaw at hp
  obtain ⟨span, hsp, hspan⟩ := List.mem_map.mp hp
  obtain ⟨s, e⟩ := span
  exact ⟨s, e, acceptSpans_subset _ _ _ _ _ s e hsp, hspan.symm⟩

theorem pySlice_length (T : List Char) (a b : Nat) :
    (pySlice T a b).length = min b T.length - a := by
  simp [pySlice]

/-- The raw matched text sits at its reported offset: `T[i:i+|match|]`
recovers exactly the match (`match.group(0)`). -/
theorem slice_at_offset (T : List Char) (s e : Nat) (hse : s ≤ e) (hlen : e ≤ T.length) :
    pySlice T s (s + (pySlice T s e).length) = pySlice T s e := by
  rw [pySlice_length]
  have : s + (min e T.length - s) = e := by omega
  rw [this]

/-- `detectRaw` splits into the six per-kind lists. -/
theorem detectRaw_eq (T : List Char) (maxM ctxChars : Nat) :
    detectRaw T maxM ctxChars =
      detectKindRaw T maxM ctxChars ("ssn") ssnRe ++
      detectKindRaw T maxM ctxChars ("credit_card") creditCardRe ++
      detectKindRaw T maxM ctxChars ("aws_key") awsKeyRe ++
      detectKindRaw T maxM ctxChars ("aws_secret") awsSecretRe ++
      detectKindRaw T maxM ctxChars ("email") emailRe ++
      detectKindRaw T maxM ctxChars ("phone_us") phoneUsRe := by
  simp [detectRaw, patternList]

theorem filter_kind_ne (T : List Char) (maxM ctxChars : Nat) (pattern_name : String)
    (r : Re) (K : String) (h : pattern_name ≠ K) :
    (detectKindRaw T maxM ctxChars pattern_name r).filter (fun p => p.1.detector == K) = [] := by
  rw [List.filter_eq_nil_iff]
  intro p hp
  have := detectKindRaw_detector T maxM ctxChars pattern_name r p hp
  simp [this, h]

theorem filter_kind_self (T : List Char) (maxM ctxChars : Nat) (pattern_name : String)
    (r : Re) :
    (detectKindRaw T maxM ctxChars pattern_name r).filter (fun p => p.1.detector == pattern_name)
      = detectKindRaw T maxM ctxChars pattern_name r := by
  rw [List.filter_eq_self]
  intro p hp
  have := detectKindRaw_detector T maxM ctxChars pattern_name r p hp
  simp [this]

theorem filter_detectRaw_le (T : List Char) (maxM ctxChars : Nat) (K : String) :
    ((detectRaw T maxM ctxChars).filter (fun p => p.1.detector == K)).length ≤ maxM := by
  rw [detectRaw_eq]
  simp only [List.filter_append, List.length_append]
  by_cases h1 : K = "ssn"
  · subst h1
    rw [filter_kind_self, filter_kind_ne _ _ _ _ _ _ (by decide), filter_kind_ne _ _ _ _ _ _ (by decide),
      filter_kind_ne _ _ _ _ _ _ (by decide), filter_kind_ne _ _ _ _ _ _ (by decide),
      filter_kind_ne _ _ _ _ _ _ (by decide)]
    have := detectKindRaw_length T maxM ctxChars ("ssn") ssnRe
    simp; omega
  by_cases h2 : K = "credit_card"
  · subst h2
    rw [filter_kind_self, filter_kind_ne _ _ _ _ _ _ (by decide), filter_kind_ne _ _ _ _ _ _ (by decide),
      filter_kind_ne _ _ _ _ _ _ (by decide), filter_kind_ne _ _ _ _ _ _ (by decide),
      filter_kind_ne _ _ _ _ _ _ (by decide)]
    have := detectKindRaw_length T maxM ctxChars ("credit_card") creditCardRe
    simp; omega
  by_cases h3 : K = "aws_key"
  · subst h3
    rw [filter_kind_self, filter_kind_ne _ _ _ _ _ _ (by decide), filter_kind_ne _ _ _ _ _ _ (by decide),
      filter_kind_ne _ _ _ _ _ _ (by decide), filter_kind_ne _ _ _ _ _ _ (by decide),
      filter_kind_ne _ _ _ _ _ _ (by decide)]
    have := detectKindRaw_length T maxM ctxChars ("aws_key") awsKeyRe
    simp; omega
  by_cases h4 : K = "aws_secret"
  · subst h4
    rw [filter_kind_self, filter_kind_ne _ _ _ _ _ _ (by decide), filter_kind_ne _ _ _ _ _ _ (by decide),
      filter_kind_ne _ _ _ _ _ _ (by decide), filter_kind_ne _ _ _ _ _ _ (by decide),
      filter_kind_ne _ _ _ _ _ _ (by decide)]
    have := detectKindRaw_length T maxM ctxChars ("aws_secret") awsSecretRe
    simp; omega
  by_cases h5 : K = "email"
  · subst h5
    rw [filter_kind_self, filter_kind_ne _ _ _ _ _ _ (by decide), filter_kind_ne _ _ _ _ _ _ (by decide),
      filter_kind_ne _ _ _ _ _ _ (by decide), filter_kind_ne _ _ _ _ _ _ (by decide),
      filter_kind_ne _ _ _ _ _ _ (by decide)]
    have := detectKindRaw_length T maxM ctxChars ("email") emailRe
    simp; omega
  by_cases h6 : K = "phone_us"
  · subst h6
    rw [filter_kind_self, filter_kind_ne _ _ _ _ _ _ (by decide), filter_kind_ne _ _ _ _ _ _ (by decide),
      filter_kind_ne _ _ _ _ _ _ (by decide), filter_kind_ne _ _ _ _ _ _ (by decide),
      filter_kind_ne _ _ _ _ _ _ (by decide)]
    have := detectKindRaw_length T maxM ctxChars ("phone_us") phoneUsRe
    simp; omega
  rw [filter_kind_ne _ _ _ _ _ _ (Ne.symm h1), filter_kind_ne _ _ _ _ _ _ (Ne.symm h2),
    filter_kind_ne _ _ _ _ _ _ (Ne.symm h3), filter_kind_ne _ _ _ _ _ _ (Ne.symm h4),
    filter_kind_ne _ _ _ _ _ _ (Ne.symm h5), filter_kind_ne _ _ _ _ _ _ (Ne.symm h6)]
  simp

/-- Every pair produced by `detectRaw` comes from a `finditer` span of one
of the six patterns, built by `findingOf`. -/
theorem detectRaw_mem (T : List Char) (maxM ctxChars : Nat) (p : Finding × List Char)
    (hp : p ∈ detectRaw T maxM ctxChars) :
    ∃ pattern_name r s e, (pattern_name, r) ∈ patternList ∧ (s, e) ∈ finditer T r ∧
      p = findingOf T ctxChars pattern_name (s, e) := by
  rw [detectRaw_eq] at hp
  simp only [List.mem_append] at hp
  rcases hp with ((((hp | hp) | hp) | hp) | hp) | hp
  · obtain ⟨s, e, hm, hf⟩ := detectKindRaw_mem _ _ _ _ _ _ hp
    exact ⟨_, _, s, e, by simp [patternList], hm, hf⟩
  · obtain ⟨s, e, hm, hf⟩ := detectKindRaw_mem _ _ _ _ _ _ hp
    exact ⟨_, _, s, e, by simp [patternList], hm, hf⟩
  · obtain ⟨s, e, hm, hf⟩ := detectKindRaw_mem _ _ _ _ _ _ hp
    exact ⟨_, _, s, e, by simp [patternList], hm, hf⟩
  · obtain ⟨s, e, hm, hf⟩ := detectKindRaw_mem _ _ _ _ _ _ hp
    exact ⟨_, _, s, e, by simp [patternList], hm, hf⟩
  · obtain ⟨s, e, hm, hf⟩ := detectKindRaw_mem _ _ _ _ _ _ hp
    exact ⟨_, _, s, e, by simp [patternList], hm, hf⟩
  · obtain ⟨s, e, hm, hf⟩ := detectKindRaw_mem _ _ _ _ _ _ hp
    exact ⟨_, _, s, e, by simp [patternList], hm, hf⟩

/-- C3: for every text `T` and detector kind `K`, `detect` returns at most
`maxPerKind` findings of kind `K`, and every finding carries an offset `i`
such that the slice `T[i : i + |match|]` equals the raw matched text. -/
theorem detect_per_kind_cap_and_offset_exact (T : List Char) (maxM ctxChars : Nat) :
    (∀ K : String,
      ((detect T maxM ctxChars).filter (fun f => f.detector == K)).length ≤ maxM) ∧
    (∀ p ∈ detectRaw T maxM ctxChars,
      pySlice T p.1.byte_offset (p.1.byte_offset + p.2.length) = p.2) := by
  constructor
  · intro K
    have hmap : (detect T maxM ctxChars).filter (fun f => f.detector == K)
        = ((detectRaw T maxM ctxChars).filter
            ((fun f => f.detector == K) ∘ Prod.fst)).map Prod.fst := by
      simp [detect, List.filter_map]
    rw [hmap, List.length_map]
    exact filter_detectRaw_le T maxM ctxChars K
  · intro p hp
    obtain ⟨pattern_name, r, s, e, _, hspan, hpf⟩ := detectRaw_mem T maxM ctxChars p hp
    have hb := finditer_spec T r s e hspan
    have h1 : p.1.byte_offset = s := by rw [hpf]; rfl
    have h2 : p.2 = pySlice T s e := by rw [hpf]; rfl
    rw [h1, h2]
    exact slice_at_offset T s e hb.1 hb.2

/-- Witness for C3 at the single-file SSN scenario text. -/
theorem detect_per_kind_cap_and_offset_exact_witness :
    ((detect (("Employee SSN: 123-45-6789").data) 10 50).filter
      (fun f => f.detector == "ssn")).length ≤ 10 ∧
    pySlice (("Employee SSN: 123-45-6789").data) 14 (14 + 11) = ("123-45-6789").data := by
  constructor
  · exact (detect_per_kind_cap_and_offset_exact (("Employee SSN: 123-45-6789").data) 10 50).1 ("ssn")
  · have h := (detect_per_kind_cap_and_offset_exact (("Employee SSN: 123-45-6789").data) 10 50).2
      (({ detector := "ssn", masked_match := ("XXX-XX-6789").data,
          context := ("Employee SSN: 123-45-6789").data, byte_offset := 14 },
        ("123-45-6789").data)) (by decide)
    simpa using h

/-- C7: `insert_findings` returns the number of findings offered — the
length of the list (0 for the empty list) — regardless of how many rows
the conflict clause dropped. -/
theorem insert_findings_returns_offered (table : List FindingRow) (findings : List Finding)
    (job_id bucket key etag : String) :
    (insert_findings table findings job_id bucket key etag).2 = findings.length := by
  unfold insert_findings
  by_cases h : findings.isEmpty
  · simp [h, List.isEmpty_iff.mp h]
  · simp [h]

theorem insertRow_mem (table : List FindingRow) (r q : FindingRow) (h : q ∈ table) :
    q ∈ insertRow table r := by
  unfold insertRow
  split <;> simp [h]

theorem insertRow_key_mem (table : List FindingRow) (r : FindingRow) :
    ∃ q ∈ insertRow table r, conflictKey q = conflictKey r := by
  unfold insertRow
  split
  · rename_i h
    obtain ⟨q, hq, hk⟩ := List.any_eq_true.mp h
    exact ⟨q, hq, by simpa using hk⟩
  · exact ⟨r, by simp, rfl⟩

theorem insertRow_skip (table : List FindingRow) (r : FindingRow)
    (h : ∃ q ∈ table, conflictKey q = conflictKey r) : insertRow table r = table := by
  unfold insertRow
  rw [if_pos]
  obtain ⟨q, hq, hk⟩ := h
  exact List.any_eq_true.mpr ⟨q, hq, by simp [hk]⟩

theorem mem_foldl_insertRow (rows : List FindingRow) :
    ∀ table q, q ∈ table → q ∈ rows.foldl insertRow table := by
  induction rows with
  | nil => intro table q h; exact h
  | cons r rs ih => intro table q h; exact ih _ q (insertRow_mem table r q h)

theorem key_present_foldl (rows : List FindingRow) :
    ∀ table r, r ∈ rows →
      ∃ q ∈ rows.foldl insertRow table, conflictKey q = conflictKey r := by
  induction rows with
  | nil => intro table r h; cases h
  | cons a as ih =>
    intro table r h
    rcases List.mem_cons.mp h with rfl | h
    · obtain ⟨q, hq, hk⟩ := insertRow_key_mem table r
      exact ⟨q, mem_foldl_insertRow as _ q hq, hk⟩
    · exact ih _ r h

theorem foldl_insertRow_noop (rows : List FindingRow) :
    ∀ table, (∀ r ∈ rows, ∃ q ∈ table, conflictKey q = conflictKey r) →
      rows.foldl insertRow table = table := by
  induction rows with
  | nil => intro table _; rfl
  | cons a as ih =>
    intro table h
    simp only [List.foldl_cons]
    rw [insertRow_skip table a (h a (by simp))]
    exact ih table (fun r hr => h r (by simp [hr]))

/-- C6: `insert_findings` is idempotent with respect to table contents —
a second identical call leaves the findings table with the same row count
(indeed the same rows), because conflicting rows are silently dropped. -/
theorem insert_findings_idempotent (table : List FindingRow) (findings : List Finding)
    (job_id bucket key etag : String) :
    ((insert_findings (insert_findings table findings job_id bucket key etag).1
        findings job_id bucket key etag).1).length
      = ((insert_findings table findings job_id bucket key etag).1).length := by
  unfold insert_findings
  by_cases h : findings.isEmpty
  · simp [h]
  · simp only [h, Bool.false_eq_true, if_false]
    congr 1
    apply foldl_insertRow_noop
    intro r hr
    exact key_present_foldl _ table r hr

/-- C8 (amended): for a job with no `job_objects` rows, all counts are
zero but `total_findings` is SQL `NULL` (`None`), not zero. -/
theorem get_job_stats_empty (table : List JobObjectRow) (job_id : String)
    (h : table.filter (fun r => r.job_id == job_id) = []) :
    get_job_stats table job_id =
      { queued := 0, processing := 0, succeeded := 0, failed := 0, total := 0,
        total_findings := none } := by
  unfold get_job_stats
  rw [h]
  rfl

/-- Witness for C8 (amended) on the empty table. -/
theorem get_job_stats_empty_witness :
    ([] : List JobObjectRow).filter (fun r => r.job_id == "job-404") = [] ∧
    get_job_stats [] "job-404" =
      { queued := 0, processing := 0, succeeded := 0, failed := 0, total := 0,
        total_findings := none } :=
  ⟨by decide, get_job_stats_empty [] "job-404" (by decide)⟩

/-- Counterexample to C8 as stated: for a job id absent from the table the
statistics record does not have a zero `total_findings` — SQL `SUM` over
zero rows yields `NULL` (`None`), and the source's zero-filled fallback is
dead because an aggregate `SELECT` always returns a row. -/
theorem get_job_stats_not_zero_filled :
    ¬ ((get_job_stats [] "job-404").queued = 0 ∧
       (get_job_stats [] "job-404").processing = 0 ∧
       (get_job_stats [] "job-404").succeeded = 0 ∧
       (get_job_stats [] "job-404").failed = 0 ∧
       (get_job_stats [] "job-404").total = 0 ∧
       (get_job_stats [] "job-404").total_findings = some 0) := by
  decide

/-- C5: under a `SUCCEEDED` execution state (or no execution found), the
aggregated status is `completed` exactly when `total = 0` or
`completed ≥ total` (`completed = succeeded + failed`), `processing`
otherwise, and the progress percent is `completed / total * 100`
(`0` when `total = 0`). -/
theorem job_status_aggregation (total succeeded failed : Nat) (sf_status : Option String)
    (h : sf_status = some ("SUCCEEDED") ∨ sf_status = none) :
    ((get_job_status_view total succeeded failed sf_status).status = some ("completed") ↔
      (total = 0 ∨ total ≤ succeeded + failed)) ∧
    ((get_job_status_view total succeeded failed sf_status).status = some ("processing") ↔
      (0 < total ∧ succeeded + failed < total)) ∧
    (get_job_status_view total succeeded failed sf_status).progress_percent =
      (if 0 < total then ((succeeded : ℚ) + (failed : ℚ)) / (total : ℚ) * 100 else 0) := by
  have hnum : ((succeeded + failed : Nat) : ℚ) = (succeeded : ℚ) + (failed : ℚ) := by
    push_cast; ring
  rcases h with h | h <;> subst h <;>
    unfold get_job_status_view <;>
    refine ⟨?_, ?_, by simp [hnum]⟩ <;>
    by_cases h0 : total = 0 <;>
    by_cases hc : total ≤ succeeded + failed <;>
    simp [h0, hc] <;>
    omega

/-- Witness for C5 at concrete counters. -/
theorem job_status_aggregation_witness :
    ((get_job_status_view 4 3 1 (some ("SUCCEEDED"))).status = some ("completed") ↔
      (4 = 0 ∨ 4 ≤ 3 + 1)) ∧
    ((get_job_status_view 4 3 1 (some ("SUCCEEDED"))).status = some ("processing") ↔
      (0 < 4 ∧ 3 + 1 < 4)) ∧
    (get_job_status_view 4 3 1 (some ("SUCCEEDED"))).progress_percent =
      (if 0 < 4 then ((3 : ℚ) + (1 : ℚ)) / (4 : ℚ) * 100 else 0) :=
  job_status_aggregation 4 3 1 (some ("SUCCEEDED")) (Or.inl rfl)

/-- C10: the worker's decode step always succeeds — latin-1 decodes every
byte sequence — so the `"Could not decode file"` skip branch is
unreachable and every non-gated object reaches the detection step. -/
theorem decode_never_fails (bs : List Byte) :
    scanBody bs ≠ ScanOutcome.skippedUndecodable ∧
    ∃ text, decodeContent bs = some text ∧
      scanBody bs = ScanOutcome.succeeded (detect (charsOfCodePoints text) 10 50) := by
  unfold scanBody decodeContent
  cases h : utf8Decode bs <;> simp

/-- Witness for C10 on a body that is invalid UTF-8 (a lone `0xFF` byte),
exercising the latin-1 fallback. -/
theorem decode_never_fails_witness :
    scanBody [(⟨255, by omega⟩ : Byte)] ≠ ScanOutcome.skippedUndecodable ∧
    ∃ text, decodeContent [(⟨255, by omega⟩ : Byte)] = some text ∧
      scanBody [(⟨255, by omega⟩ : Byte)] =
        ScanOutcome.succeeded (detect (charsOfCodePoints text) 10 50) :=
  decode_never_fails [(⟨255, by omega⟩ : Byte)]

/-- C1 (failing input): a batch of one malformed message followed by one
valid message whose processing succeeds.  `main_loop` zips the received
messages positionally with `process_batch`'s results, but the results list
omits dropped envelopes, so the worker deletes the malformed message and
leaves the successfully processed one on the queue — the opposite of the
claim (and of the source's own comment and the receipt handles
`process_batch` attaches for this purpose). -/
theorem ack_misaligned_on_invalid_envelope :
    ackStep (fun _ => "succeeded")
        [{ body := MsgBody.malformed, receiptHandle := "rh-1" },
         { body := MsgBody.fields (some ("job-1")) (some ("bkt")) (some ("a.txt")) "etag-1",
           receiptHandle := "rh-2" }]
      = [{ body := MsgBody.malformed, receiptHandle := "rh-1" }] := by
  decide

/-- C9 (amended): a `GET /results` request whose cursor does not parse as
an integer is not rejected — the handler never converts the cursor, and
`get_results` swallows the `ValueError` and drops the `id < cursor`
condition, so the response is a 200 carrying the same page as a request
with no cursor filter at all. -/
theorem results_bad_cursor_ignored (table : List ResultRow) (job_id bucket key : Option String)
    (limit : Nat) (cursor : String) (h : parseInt cursor.data = none)
    (limitParam offsetParam : Option String)
    (hl : (parseInt ((limitParam.getD ("100")).data)).isSome = true)
    (ho : offsetParam = none ∨ offsetParam = some ("") ∨
      (parseInt ((offsetParam.getD ("")).data)).isSome = true) :
    resultsRouteStatus limitParam offsetParam = 200 ∧
    get_results_cursor table job_id bucket key limit cursor =
      { findings := ((sortByIdDesc table).filter (rowMatches job_id bucket key none)).take limit,
        total := ((sortByIdDesc table).filter (rowMatches job_id bucket key none)).length } := by
  constructor
  · unfold resultsRouteStatus
    cases hp : parseInt ((limitParam.getD ("100")).data) with
    | none => rw [hp] at hl; simp at hl
    | some v =>
      rcases ho with ho | ho | ho
      · subst ho; rfl
      · subst ho; rfl
      · cases offsetParam with
        | none => rfl
        | some off =>
          rw [Option.getD_some] at ho
          by_cases hoe : off.isEmpty
          · simp [hoe]
          · simp only [hoe, Bool.false_eq_true, if_false]
            cases hr : parseInt off.data with
            | none => rw [hr] at ho; simp at ho
            | some w => rfl
  · unfold get_results_cursor
    rw [h]

/-- Witness for C9 (amended) at a concrete table and the cursor `abc`. -/
theorem results_bad_cursor_ignored_witness :
    resultsRouteStatus none (some ("")) = 200 ∧
    get_results_cursor [{ id := 7, job_id := "job-1", bucket := "bkt", key := "k1" }]
        none none none 100 ("abc") =
      { findings := ((sortByIdDesc [{ id := 7, job_id := "job-1", bucket := "bkt", key := "k1" }]).filter
          (rowMatches none none none none)).take 100,
        total := ((sortByIdDesc [{ id := 7, job_id := "job-1", bucket := "bkt", key := "k1" }]).filter
          (rowMatches none none none none)).length } :=
  results_bad_cursor_ignored [{ id := 7, job_id := "job-1", bucket := "bkt", key := "k1" }]
    none none none 100 ("abc") (by decide) none (some ("")) (by decide) (Or.inr (Or.inl rfl))

/-- Counterexample to C9 as stated: a `GET /results` request with the
unparseable cursor `abc` is answered 200 — not any 4xx — and the findings
are returned (the cursor filter is silently dropped). -/
theorem results_bad_cursor_not_4xx :
    parseInt (("abc").data) = none ∧
    resultsRouteStatus none none = 200 ∧
    ¬ (400 ≤ resultsRouteStatus none none ∧ resultsRouteStatus none none < 500) ∧
    (get_results_cursor [{ id := 7, job_id := "job-1", bucket := "bkt", key := "k1" }]
        none none none 100 ("abc")).findings
      = [{ id := 7, job_id := "job-1", bucket := "bkt", key := "k1" }] := by
  refine ⟨by decide, rfl, by decide, ?_⟩
  decide

/-! ### Shape lemmas for the masking claim -/

theorem mem_cat (T : List Char) (r1 r2 : Re) (i e : Nat) :
    e ∈ mtch T (.cat r1 r2) i ↔ ∃ j, j ∈ mtch T r1 i ∧ e ∈ mtch T r2 j := by
  simp [mtch]

theorem mem_wordB (T : List Char) (i e : Nat) :
    e ∈ mtch T .wordB i ↔ (wordBoundary T i = true ∧ e = i) := by
  simp only [mtch]
  split <;> simp_all

theorem mem_cls (T : List Char) (p : Char → Bool) (i e : Nat) :
    e ∈ mtch T (.cls p) i ↔ ∃ c, T.get? i = some c ∧ p c = true ∧ e = i + 1 := by
  simp only [mtch]
  rcases hg : T.get? i with _ | c <;> simp [hg]

/-- An exact repetition `{k,k}` is just `k` mandatory iterations. -/
theorem rep_exact_eq (T : List Char) (r : Re) (k : Nat) (lzy : Bool) (i : Nat) :
    mtch T (.rep r k (some k) lzy) i = mtchTimes (mtch T r) k i := by
  simp only [mtch, repFuel, Nat.sub_self]
  have : ∀ j, mtchOpt (mtch T r) lzy 0 j = [j] := fun j => rfl
  simp [this]

theorem mem_mtchTimes_cls (T : List Char) (p : Char → Bool) :
    ∀ k i e, e ∈ mtchTimes (mtch T (.cls p)) k i ↔
      (e = i + k ∧ ∀ m, m < k → ∃ c, T.get? (i + m) = some c ∧ p c = true) := by
  intro k
  induction k with
  | zero => intro i e; simp [mtchTimes]
  | succ n ih =>
    intro i e
    simp only [mtchTimes, List.mem_flatMap]
    constructor
    · rintro ⟨j, hj, hje⟩
      rw [mem_cls] at hj
      obtain ⟨c, hc, hpc, rfl⟩ := hj
      obtain ⟨he, hall⟩ := (ih (i + 1) e).mp hje
      refine ⟨by omega, ?_⟩
      intro m hm
      cases m with
      | zero => exact ⟨c, by simpa using hc, hpc⟩
      | succ m' =>
        obtain ⟨c', hc', hp'⟩ := hall m' (by omega)
        exact ⟨c', by rw [show i + (m' + 1) = i + 1 + m' by omega]; exact hc', hp'⟩
    · rintro ⟨he, hall⟩
      obtain ⟨c, hc, hpc⟩ := hall 0 (by omega)
      refine ⟨i + 1, ?_, ?_⟩
      · rw [mem_cls]
        exact ⟨c, by simpa using hc, hpc, rfl⟩
      · refine (ih (i + 1) e).mpr ⟨by omega, ?_⟩
        intro m hm
        obtain ⟨c', hc', hp'⟩ := hall (m + 1) (by omega)
        exact ⟨c', by rw [show i + 1 + m = i + (m + 1) by omega]; exact hc', hp'⟩

/-- Every SSN-pattern match is exactly 11 characters long and its last
four characters (offsets 7-10) are digits. -/
theorem ssn_shape (T : List Char) (s e : Nat) (h : e ∈ mtch T ssnRe s) :
    e = s + 11 ∧ ∀ m, m < 4 → ∃ c, T.get? (s + 7 + m) = some c ∧ isDigitChar c = true := by
  have hsr : ssnRe = .cat .wordB (.cat (.rep (.cls isDigitChar) 3 (some 3) false)
      (.cat (.cls (litCI '-')) (.cat (.rep (.cls isDigitChar) 2 (some 2) false)
      (.cat (.cls (litCI '-')) (.cat (.rep (.cls isDigitChar) 4 (some 4) false) .wordB))))) := rfl
  rw [hsr] at h
  simp only [mem_cat, mem_wordB, mem_cls, rep_exact_eq, mem_mtchTimes_cls] at h
  obtain ⟨j1, ⟨hb1, he1⟩, j2, ⟨he2, hd3⟩, j3, ⟨c1, hc1, hl1, he3⟩, j4, ⟨he4, hd2⟩,
    j5, ⟨c2, hc2, hl2, he5⟩, j6, ⟨he6, hd4⟩, hb2, he7⟩ := h
  refine ⟨by omega, ?_⟩
  intro m hm
  obtain ⟨c, hc, hp⟩ := hd4 m hm
  refine ⟨c, ?_, hp⟩
  rw [show s + 7 + m = j5 + m by omega]
  exact hc

/-- Every AWS-key-pattern match is exactly 20 characters long. -/
theorem aws_key_shape (T : List Char) (s e : Nat) (h : e ∈ mtch T awsKeyRe s) :
    e = s + 20 := by
  have har : awsKeyRe = .cat (.cls (litCI 'A')) (.cat (.cls (litCI 'K'))
      (.cat (.cls (litCI 'I')) (.cat (.cls (litCI 'A'))
      (.rep (.cls isUpperAlnumCI) 16 (some 16) false)))) := rfl
  rw [har] at h
  simp only [mem_cat, mem_cls, rep_exact_eq, mem_mtchTimes_cls] at h
  obtain ⟨j1, ⟨c1, hc1, hp1, he1⟩, j2, ⟨c2, hc2, hp2, he2⟩, j3, ⟨c3, hc3, hp3, he3⟩,
    j4, ⟨c4, hc4, hp4, he4⟩, he5, hall⟩ := h
  omega

theorem ccBody_strict (T : List Char) (i e : Nat) (h : e ∈ mtch T ccBody i) :
    i + 1 ≤ e := by
  unfold ccBody at h
  rw [mem_cat] at h
  obtain ⟨j, hj, hje⟩ := h
  rw [mem_cls] at hj
  obtain ⟨c, _, _, rfl⟩ := hj
  exact mtch_le T _ _ e hje

theorem mtchTimes_adds (f : Nat → List Nat) (hf : ∀ i e, e ∈ f i → i + 1 ≤ e) :
    ∀ k i e, e ∈ mtchTimes f k i → i + k ≤ e := by
  intro k
  induction k with
  | zero => intro i e he; simp [mtchTimes] at he; omega
  | succ n ih =>
    intro i e he
    simp only [mtchTimes, List.mem_flatMap] at he
    obtain ⟨j, hj, hje⟩ := he
    have := hf i j hj
    have := ih j e hje
    omega

/-- Every credit-card-pattern match is at least 13 characters long. -/
theorem cc_min_len (T : List Char) (s e : Nat) (h : e ∈ mtch T creditCardRe s) :
    s + 13 ≤ e := by
  have hcr : creditCardRe = .cat .wordB (.cat (.rep ccBody 13 (some 16) false) .wordB) := rfl
  rw [hcr] at h
  simp only [mem_cat, mem_wordB] at h
  obtain ⟨j1, ⟨hb1, he1⟩, j2, hrep, hb2, he2⟩ := h
  simp only [mtch, List.mem_flatMap] at hrep
  obtain ⟨j, hTimes, hOpt⟩ := hrep
  have h1 := mtchTimes_adds (mtch T ccBody) (ccBody_strict T) 13 j1 j hTimes
  have h2 := mtchOpt_le (mtch T ccBody) (fun i e he => mtch_le T _ i e he) false _ j j2 hOpt
  omega

theorem pySlice_get? (T : List Char) (a b m : Nat) (hm : a + m < b) (_hb : b ≤ T.length) :
    (pySlice T a b).get? m = T.get? (a + m) := by
  unfold pySlice
  rw [List.get?_eq_getElem?, List.get?_eq_getElem?, List.getElem?_drop,
    List.getElem?_take_of_lt (by omega)]

/-- Each finding of a kind comes from a match span of that kind's regex,
with the raw text and mask taken from the slice at that span. -/
theorem detectKindRaw_span (T : List Char) (maxM ctxChars : Nat) (pattern_name : String)
    (r : Re) (p : Finding × List Char) (hp : p ∈ detectKindRaw T maxM ctxChars pattern_name r) :
    ∃ s e, e ∈ mtch T r s ∧ s ≤ e ∧ e ≤ T.length ∧
      p.1.detector = pattern_name ∧ p.2 = pySlice T s e ∧
      p.1.masked_match = maskFor pattern_name (pySlice T s e) := by
  obtain ⟨s, e, hsp, hpf⟩ := detectKindRaw_mem T maxM ctxChars pattern_name r p hp
  have hmtch := (findIterAux_spec T r _ 0 s e hsp).2
  have hb := finditer_spec T r s e hsp
  exact ⟨s, e, hmtch, hb.1, hb.2, by rw [hpf]; rfl, by rw [hpf]; rfl, by rw [hpf]; rfl⟩


theorem mem_drop_get (l : List Char) (d : Nat) (c : Char) (hc : c ∈ l.drop d) :
    ∃ k, l.get? (d + k) = some c ∧ k < l.length - d := by
  obtain ⟨k, hk, hkc⟩ := List.mem_iff_getElem.mp hc
  rw [List.length_drop] at hk
  refine ⟨k, ?_, by omega⟩
  rw [List.get?_eq_getElem?, ← List.getElem?_drop,
    List.getElem?_eq_getElem (by rw [List.length_drop]; omega), hkc]

theorem ssn_finding_mask (T : List Char) (maxM ctxChars : Nat) (p : Finding × List Char)
    (hp : p ∈ detectKindRaw T maxM ctxChars ("ssn") ssnRe) :
    p.2.length = 11 ∧ p.1.masked_match = ("XXX-XX-").data ++ lastN 4 p.2 ∧
    ∀ c ∈ lastN 4 p.2, isDigitChar c = true := by
  obtain ⟨s, e, hm, hse, hlen, hdet, hraw, hmask⟩ := detectKindRaw_span _ _ _ _ _ _ hp
  obtain ⟨he, hd4⟩ := ssn_shape T s e hm
  subst he
  have hL : (pySlice T s (s + 11)).length = 11 := by rw [pySlice_length]; omega
  have hL2 : p.2.length = 11 := by rw [hraw]; exact hL
  refine ⟨hL2, ?_, ?_⟩
  · rw [hmask, hraw]
    unfold maskFor
    rw [if_pos (by decide), if_pos (by rw [hL]; omega)]
  · intro c hc
    unfold lastN at hc
    rw [hL2, hraw] at hc
    obtain ⟨k, hk, hklt⟩ := mem_drop_get _ _ _ hc
    rw [hL] at hklt
    rw [pySlice_get? T s (s + 11) (7 + k) (by omega) hlen] at hk
    obtain ⟨c2, hc2, hd2⟩ := hd4 k (by omega)
    rw [show s + 7 + k = s + (7 + k) by omega] at hc2
    rw [hc2] at hk
    cases hk
    exact hd2

theorem cc_finding_mask (T : List Char) (maxM ctxChars : Nat) (p : Finding × List Char)
    (hp : p ∈ detectKindRaw T maxM ctxChars ("credit_card") creditCardRe) :
    13 ≤ p.2.length ∧
    p.1.masked_match = ("****-****-****-").data ++ lastN 4 p.2 := by
  obtain ⟨s, e, hm, hse, hlen, hdet, hraw, hmask⟩ := detectKindRaw_span _ _ _ _ _ _ hp
  have hmin := cc_min_len T s e hm
  have hL : (pySlice T s e).length = e - s := by rw [pySlice_length]; omega
  refine ⟨by rw [hraw, hL]; omega, ?_⟩
  rw [hmask, hraw]
  unfold maskFor
  rw [if_neg (by decide), if_pos (by decide), if_pos (by rw [hL]; omega)]

theorem aws_finding_mask (T : List Char) (maxM ctxChars : Nat) (p : Finding × List Char)
    (hp : p ∈ detectKindRaw T maxM ctxChars ("aws_key") awsKeyRe) :
    p.2.length = 20 ∧
    p.1.masked_match = p.2.take 4 ++ ("...").data ++ lastN 4 p.2 := by
  obtain ⟨s, e, hm, hse, hlen, hdet, hraw, hmask⟩ := detectKindRaw_span _ _ _ _ _ _ hp
  have he := aws_key_shape T s e hm
  subst he
  have hL : (pySlice T s (s + 20)).length = 20 := by rw [pySlice_length]; omega
  refine ⟨by rw [hraw]; exact hL, ?_⟩
  rw [hmask, hraw]
  unfold maskFor
  rw [if_neg (by decide), if_neg (by decide), if_pos (by decide), if_pos (by rw [hL]; omega)]

/-- C4 (amended): the SSN mask is `XXX-XX-` plus the last four characters
of the match, which are its last four digits; the AWS-key mask is the
first four characters, `...`, and the last four characters; the
credit-card mask is `****-****-****-` plus the last four characters of the
raw matched text — which are the last four digits only when no separator
falls among them. -/
theorem detect_masks (T : List Char) (maxM ctxChars : Nat) :
    ∀ p ∈ detectRaw T maxM ctxChars,
      (p.1.detector = "ssn" → p.2.length = 11 ∧
        p.1.masked_match = ("XXX-XX-").data ++ lastN 4 p.2 ∧
        ∀ c ∈ lastN 4 p.2, isDigitChar c = true) ∧
      (p.1.detector = "credit_card" → 13 ≤ p.2.length ∧
        p.1.masked_match = ("****-****-****-").data ++ lastN 4 p.2) ∧
      (p.1.detector = "aws_key" → p.2.length = 20 ∧
        p.1.masked_match = p.2.take 4 ++ ("...").data ++ lastN 4 p.2) := by
  intro p hp
  rw [detectRaw_eq] at hp
  simp only [List.mem_append] at hp
  rcases hp with ((((hp | hp) | hp) | hp) | hp) | hp
  · have hdet := detectKindRaw_detector _ _ _ _ _ _ hp
    exact ⟨fun _ => ssn_finding_mask T maxM ctxChars p hp,
      fun hc => absurd (hdet.symm.trans hc) (by decide),
      fun hc => absurd (hdet.symm.trans hc) (by decide)⟩
  · have hdet := detectKindRaw_detector _ _ _ _ _ _ hp
    exact ⟨fun hc => absurd (hdet.symm.trans hc) (by decide),
      fun _ => cc_finding_mask T maxM ctxChars p hp,
      fun hc => absurd (hdet.symm.trans hc) (by decide)⟩
  · have hdet := detectKindRaw_detector _ _ _ _ _ _ hp
    exact ⟨fun hc => absurd (hdet.symm.trans hc) (by decide),
      fun hc => absurd (hdet.symm.trans hc) (by decide),
      fun _ => aws_finding_mask T maxM ctxChars p hp⟩
  · have hdet := detectKindRaw_detector _ _ _ _ _ _ hp
    exact ⟨fun hc => absurd (hdet.symm.trans hc) (by decide),
      fun hc => absurd (hdet.symm.trans hc) (by decide),
      fun hc => absurd (hdet.symm.trans hc) (by decide)⟩
  · have hdet := detectKindRaw_detector _ _ _ _ _ _ hp
    exact ⟨fun hc => absurd (hdet.symm.trans hc) (by decide),
      fun hc => absurd (hdet.symm.trans hc) (by decide),
      fun hc => absurd (hdet.symm.trans hc) (by decide)⟩
  · have hdet := detectKindRaw_detector _ _ _ _ _ _ hp
    exact ⟨fun hc => absurd (hdet.symm.trans hc) (by decide),
      fun hc => absurd (hdet.symm.trans hc) (by decide),
      fun hc => absurd (hdet.symm.trans hc) (by decide)⟩

/-- Witness for C4 (amended) at the single-SSN text. -/
theorem detect_masks_witness :
    (("123-45-6789").data).length = 11 ∧
    ("XXX-XX-6789").data = ("XXX-XX-").data ++ lastN 4 (("123-45-6789").data) ∧
    ∀ c ∈ lastN 4 (("123-45-6789").data), isDigitChar c = true :=
  (detect_masks (("123-45-6789").data) 10 50
    (({ detector := "ssn", masked_match := ("XXX-XX-6789").data,
        context := ("123-45-6789").data, byte_offset := 0 }, ("123-45-6789").data))
    (by decide)).1 rfl

/-- Counterexample to C4 as stated: on `4111111111 1 1 9` (a Luhn-valid
13-digit card written with separators) the emitted credit-card finding is
masked with the last four characters of the raw match — `" 1 9"`, which
includes separators — not the last four digits `1119` of the card number. -/
theorem cc_mask_not_last_four_digits :
    ((detect (("4111111111 1 1 9").data) 10 50).filter
        (fun f => f.detector == "credit_card")).map Finding.masked_match
      = [("****-****-****- 1 9").data] ∧
    stripNonDigits (("4111111111 1 1 9").data) = ("4111111111119").data ∧
    lastN 4 (("4111111111119").data) = ("1119").data ∧
    ("****-****-****- 1 9").data ≠ ("****-****-****-1119").data := by
  refine ⟨by decide, by decide, by decide, by decide⟩

/-! ### Credit-card detection on pure digit runs -/

theorem cls_eval_some (T : List Char) (p : Char → Bool) (i : Nat) (c : Char)
    (hg : T.get? i = some c) : mtch T (.cls p) i = if p c then [i + 1] else [] := by
  simp only [mtch, hg]

theorem cls_eval_none (T : List Char) (p : Char → Bool) (i : Nat)
    (hg : T.get? i = none) : mtch T (.cls p) i = [] := by
  simp only [mtch, hg]

theorem wordB_eval_true (T : List Char) (i : Nat) (h : wordBoundary T i = true) :
    mtch T Re.wordB i = [i] := by
  simp only [mtch, h, if_true]

theorem wordB_eval_false (T : List Char) (i : Nat) (h : wordBoundary T i = false) :
    mtch T Re.wordB i = [] := by
  simp only [mtch, h]
  rfl

theorem digit_not_sep (c : Char) (h : isDigitChar c = true) : isSepChar c = false := by
  unfold isDigitChar at h
  unfold isSepChar
  by_cases h1 : c = ' '
  · subst h1; simp at h
  · by_cases h2 : c = '-'
    · subst h2; simp at h
    · simp [h1, h2]

theorem digit_word (c : Char) (h : isDigitChar c = true) : isWordChar c = true := by
  unfold isWordChar
  rw [h]
  simp

theorem sep_mtch_empty (ds : List Char) (hd : ∀ c ∈ ds, isDigitChar c = true) (j : Nat) :
    mtch ds (.cls isSepChar) j = [] := by
  rcases hg : ds.get? j with _ | c
  · exact cls_eval_none ds _ j hg
  · rw [cls_eval_some ds _ j c hg, digit_not_sep c (hd c (List.get?_mem hg))]
    rfl

theorem mtchOpt_empty (f : Nat → List Nat) (hf : ∀ j, f j = []) (lzy : Bool)
    (fuel j : Nat) : mtchOpt f lzy fuel j = [j] := by
  cases fuel with
  | zero => rfl
  | succ m =>
    simp only [mtchOpt, hf, List.flatMap_nil]
    cases lzy <;> rfl

theorem ccBody_digits (ds : List Char) (hd : ∀ c ∈ ds, isDigitChar c = true) (i : Nat) :
    mtch ds ccBody i = if i < ds.length then [i + 1] else [] := by
  have hdef : mtch ds ccBody i = (mtch ds (.cls isDigitChar) i).flatMap
      (fun j => mtch ds (.rep (.cls isSepChar) 0 none true) j) := rfl
  rw [hdef]
  rcases hg : ds.get? i with _ | c
  · have hi := List.get?_eq_none.mp hg
    rw [cls_eval_none ds _ i hg, if_neg (by omega)]
    rfl
  · have hc := hd c (List.get?_mem hg)
    have hi : i < ds.length := by
      by_contra hlt
      rw [List.get?_eq_none.mpr (by omega)] at hg
      cases hg
    rw [cls_eval_some ds _ i c hg, hc, if_pos rfl, if_pos hi]
    simp only [List.flatMap_cons, List.flatMap_nil, List.append_nil]
    have hrep : mtch ds (.rep (.cls isSepChar) 0 none true) (i + 1)
        = mtchOpt (mtch ds (.cls isSepChar)) true (repFuel ds 0 none) (i + 1) := by
      simp only [mtch, mtchTimes, List.flatMap_cons, List.flatMap_nil, List.append_nil]
    rw [hrep, mtchOpt_empty _ (sep_mtch_empty ds hd) true _ (i + 1)]

theorem mtchTimes_ccBody (ds : List Char) (hd : ∀ c ∈ ds, isDigitChar c = true) :
    ∀ k i, i ≤ ds.length → mtchTimes (mtch ds ccBody) k i =
      if i + k ≤ ds.length then [i + k] else [] := by
  intro k
  induction k with
  | zero => intro i hi; rw [if_pos (by omega)]; rfl
  | succ m ih =>
    intro i hi
    simp only [mtchTimes]
    rw [ccBody_digits ds hd i]
    by_cases hlt : i < ds.length
    · rw [if_pos hlt]
      simp only [List.flatMap_cons, List.flatMap_nil, List.append_nil]
      rw [ih (i + 1) (by omega)]
      by_cases hk : i + 1 + m ≤ ds.length
      · rw [if_pos hk, if_pos (by omega)]
        congr 1
        omega
      · rw [if_neg hk, if_neg (by omega)]
    · rw [if_neg hlt, if_neg (by omega)]
      rfl

/-- The descending run `[i+k, i+k-1, ..., i]`. -/
def descRun (i : Nat) : Nat → List Nat
  | 0 => [i]
  | k + 1 => (i + (k + 1)) :: descRun i k

theorem descRun_shift (i : Nat) : ∀ k, descRun (i + 1) k ++ [i] = descRun i (k + 1) := by
  intro k
  induction k with
  | zero => rfl
  | succ m ih =>
    show (i + 1 + (m + 1)) :: (descRun (i + 1) m ++ [i]) = descRun i (m + 2)
    rw [ih]
    show (i + 1 + (m + 1)) :: descRun i (m + 1) = (i + (m + 2)) :: descRun i (m + 1)
    rw [show i + 1 + (m + 1) = i + (m + 2) by omega]

theorem mtchOpt_ccBody_greedy (ds : List Char) (hd : ∀ c ∈ ds, isDigitChar c = true) :
    ∀ fuel i, i ≤ ds.length →
      mtchOpt (mtch ds ccBody) false fuel i = descRun i (min fuel (ds.length - i)) := by
  intro fuel
  induction fuel with
  | zero => intro i _; rw [Nat.zero_min]; rfl
  | succ m ih =>
    intro i hi
    simp only [mtchOpt]
    rw [ccBody_digits ds hd i]
    by_cases hlt : i < ds.length
    · rw [if_pos hlt]
      simp only [List.flatMap_cons, List.flatMap_nil, List.append_nil, Bool.false_eq_true,
        if_false]
      rw [ih (i + 1) (by omega)]
      rw [descRun_shift]
      congr 1
      omega
    · rw [if_neg hlt]
      simp only [List.flatMap_nil, Bool.false_eq_true, if_false, List.nil_append]
      rw [show min (m + 1) (ds.length - i) = 0 by omega]
      rfl

theorem digits_wb_zero (ds : List Char) (hd : ∀ c ∈ ds, isDigitChar c = true)
    (hn : 0 < ds.length) : wordBoundary ds 0 = true := by
  unfold wordBoundary isWordAt
  rcases hg : ds.get? 0 with _ | c
  · rw [List.get?_eq_none] at hg; omega
  · simp [digit_word c (hd c (List.get?_mem hg))]

theorem digits_wb_mid (ds : List Char) (hd : ∀ c ∈ ds, isDigitChar c = true)
    (e : Nat) (h1 : 1 ≤ e) (h2 : e < ds.length) : wordBoundary ds e = false := by
  unfold wordBoundary isWordAt
  rcases hg : ds.get? (e - 1) with _ | c
  · rw [List.get?_eq_none] at hg; omega
  · rcases hg2 : ds.get? e with _ | c2
    · rw [List.get?_eq_none] at hg2; omega
    · rw [if_neg (by omega)]
      simp [digit_word c (hd c (List.get?_mem hg)), digit_word c2 (hd c2 (List.get?_mem hg2))]

theorem digits_wb_end (ds : List Char) (hd : ∀ c ∈ ds, isDigitChar c = true)
    (hn : 1 ≤ ds.length) : wordBoundary ds ds.length = true := by
  unfold wordBoundary isWordAt
  rcases hg : ds.get? (ds.length - 1) with _ | c
  · rw [List.get?_eq_none] at hg; omega
  · rw [if_neg (by omega), List.get?_eq_none.mpr (by omega)]
    simp [digit_word c (hd c (List.get?_mem hg))]

theorem descRun_wb_lt (ds : List Char) (hd : ∀ c ∈ ds, isDigitChar c = true) :
    ∀ k i, 1 ≤ i → i + k < ds.length →
      (descRun i k).flatMap (fun e => mtch ds Re.wordB e) = [] := by
  intro k
  induction k with
  | zero =>
    intro i h1 h2
    simp only [descRun, List.flatMap_cons, List.flatMap_nil, List.append_nil]
    exact wordB_eval_false ds i (digits_wb_mid ds hd i h1 (by omega))
  | succ m ih =>
    intro i h1 h2
    simp only [descRun, List.flatMap_cons]
    rw [wordB_eval_false ds _ (digits_wb_mid ds hd (i + (m + 1)) (by omega) (by omega)),
      ih i h1 (by omega)]
    rfl

theorem descRun_wb_top (ds : List Char) (hd : ∀ c ∈ ds, isDigitChar c = true) :
    ∀ k i, 1 ≤ i → i + k = ds.length →
      (descRun i k).flatMap (fun e => mtch ds Re.wordB e) = [ds.length] := by
  intro k
  induction k with
  | zero =>
    intro i h1 h2
    simp only [descRun, List.flatMap_cons, List.flatMap_nil, List.append_nil]
    rw [show i = ds.length by omega]
    exact wordB_eval_true ds _ (digits_wb_end ds hd (by omega))
  | succ m ih =>
    intro i h1 h2
    simp only [descRun, List.flatMap_cons]
    rw [show i + (m + 1) = ds.length by omega,
      wordB_eval_true ds _ (digits_wb_end ds hd (by omega)),
      descRun_wb_lt ds hd m i h1 (by omega)]
    rfl

theorem cc_mtch_zero (ds : List Char) (hd : ∀ c ∈ ds, isDigitChar c = true)
    (h13 : 13 ≤ ds.length) (h16 : ds.length ≤ 16) :
    mtch ds creditCardRe 0 = [ds.length] := by
  have hdef : mtch ds creditCardRe 0 = (mtch ds Re.wordB 0).flatMap
      (fun j => (mtch ds (.rep ccBody 13 (some 16) false) j).flatMap
        (fun j2 => mtch ds Re.wordB j2)) := rfl
  rw [hdef, wordB_eval_true ds 0 (digits_wb_zero ds hd (by omega))]
  simp only [List.flatMap_cons, List.flatMap_nil, List.append_nil]
  have hrep : mtch ds (.rep ccBody 13 (some 16) false) 0
      = (mtchTimes (mtch ds ccBody) 13 0).flatMap
          (fun j => mtchOpt (mtch ds ccBody) false 3 j) := rfl
  rw [hrep, mtchTimes_ccBody ds hd 13 0 (by omega), if_pos (by omega)]
  simp only [List.flatMap_cons, List.flatMap_nil, List.append_nil]
  rw [mtchOpt_ccBody_greedy ds hd 3 (0 + 13) (by omega),
    show min 3 (ds.length - (0 + 13)) = ds.length - 13 by omega,
    show (0 + 13) = 13 by omega]
  exact descRun_wb_top ds hd (ds.length - 13) 13 (by omega) (by omega)

theorem cc_mtch_mid (ds : List Char) (hd : ∀ c ∈ ds, isDigitChar c = true)
    (i : Nat) (h1 : 1 ≤ i) (h2 : i < ds.length) :
    mtch ds creditCardRe i = [] := by
  have hdef : mtch ds creditCardRe i = (mtch ds Re.wordB i).flatMap
      (fun j => (mtch ds (.rep ccBody 13 (some 16) false) j).flatMap
        (fun j2 => mtch ds Re.wordB j2)) := rfl
  rw [hdef, wordB_eval_false ds i (digits_wb_mid ds hd i h1 h2)]
  rfl

theorem cc_mtch_end (ds : List Char) (hd : ∀ c ∈ ds, isDigitChar c = true)
    (h13 : 13 ≤ ds.length) :
    mtch ds creditCardRe ds.length = [] := by
  have hdef : mtch ds creditCardRe ds.length = (mtch ds Re.wordB ds.length).flatMap
      (fun j => (mtch ds (.rep ccBody 13 (some 16) false) j).flatMap
        (fun j2 => mtch ds Re.wordB j2)) := rfl
  rw [hdef, wordB_eval_true ds _ (digits_wb_end ds hd (by omega))]
  simp only [List.flatMap_cons, List.flatMap_nil, List.append_nil]
  have hrep : mtch ds (.rep ccBody 13 (some 16) false) ds.length
      = (mtchTimes (mtch ds ccBody) 13 ds.length).flatMap
          (fun j => mtchOpt (mtch ds ccBody) false 3 j) := rfl
  rw [hrep, mtchTimes_ccBody ds hd 13 ds.length (by omega), if_neg (by omega)]
  rfl

theorem firstMatchAux_none_gt (T : List Char) (r : Re) (fuel i : Nat)
    (h : T.length < i) : firstMatchAux T r fuel i = none := by
  cases fuel with
  | zero => rfl
  | succ m =>
    simp only [firstMatchAux]
    rw [if_pos h]

theorem finditer_cc (ds : List Char) (hd : ∀ c ∈ ds, isDigitChar c = true)
    (h13 : 13 ≤ ds.length) (h16 : ds.length ≤ 16) :
    finditer ds creditCardRe = [(0, ds.length)] := by
  have hfm0 : firstMatch ds creditCardRe 0 = some (0, ds.length) := by
    unfold firstMatch
    simp only [firstMatchAux]
    rw [if_neg (by omega), cc_mtch_zero ds hd h13 h16]
  have hfmn : firstMatch ds creditCardRe ds.length = none := by
    unfold firstMatch
    simp only [firstMatchAux]
    rw [if_neg (by omega), cc_mtch_end ds hd h13]
    exact firstMatchAux_none_gt ds _ _ _ (by omega)
  have h1 : finditer ds creditCardRe
      = (0, ds.length) :: findIterAux ds creditCardRe (ds.length + 1)
          (if ds.length ≤ 0 then 0 + 1 else ds.length) := by
    unfold finditer
    rw [show ds.length + 2 = (ds.length + 1) + 1 from rfl]
    simp only [findIterAux, hfm0]
  have h2 : findIterAux ds creditCardRe (ds.length + 1) ds.length = [] := by
    simp only [findIterAux, hfmn]
  rw [h1, if_neg (by omega), h2]

/-! ### The code's Luhn check equals the specification's reference Luhn -/

theorem digitVal_le (c : Char) (h : isDigitChar c = true) : digitVal c ≤ 9 := by
  unfold isDigitChar at h
  unfold digitVal
  simp at h
  omega

theorem luhn_term_eq (d k : Nat) (hd : d ≤ 9) :
    (if k % 2 = 0 then d else d * 2 / 10 + d * 2 % 10)
      = (if k % 2 = 1 then decimalDigitSum (d * 2) else d) := by
  unfold decimalDigitSum
  rcases Nat.mod_two_eq_zero_or_one k with h | h <;> rw [h]
  · simp
  · simp only [Nat.one_ne_zero, if_false, if_pos]
    by_cases h10 : d * 2 < 10
    · rw [if_pos h10]
      omega
    · rw [if_neg h10]
      omega

theorem luhnSumAux_eq_ref (l : List Char) (hl : ∀ c ∈ l, isDigitChar c = true) :
    ∀ k, luhnSumAux (l.map digitVal) k
      = ((l.enumFrom k).map (fun p =>
          if p.1 % 2 = 1 then decimalDigitSum (digitVal p.2 * 2) else digitVal p.2)).sum := by
  induction l with
  | nil => intro k; rfl
  | cons c cs ih =>
    intro k
    simp only [List.map_cons, luhnSumAux, List.enumFrom, List.sum_cons]
    rw [luhn_term_eq (digitVal c) k (digitVal_le c (hl c (by simp)))]
    rw [ih (fun x hx => hl x (by simp [hx])) (k + 1)]

theorem luhn_eq_reference (ds : List Char) (hd : ∀ c ∈ ds, isDigitChar c = true)
    (h13 : 13 ≤ ds.length) : luhn_check ds = referenceLuhn ds := by
  unfold luhn_check referenceLuhn luhn_sum
  have hrev : ∀ c ∈ ds.reverse, isDigitChar c = true := by
    intro c hc
    exact hd c (List.mem_reverse.mp hc)
  rw [luhnSumAux_eq_ref ds.reverse hrev 0]
  have h13d : decide (13 ≤ ds.length) = true := by simp; omega
  rw [h13d]
  rw [show (List.enum ds.reverse) = List.enumFrom 0 ds.reverse from rfl]
  simp

/-! ### The credit-card branch of `detect` on a pure digit run -/

theorem pySlice_full (T : List Char) : pySlice T 0 T.length = T := by
  simp [pySlice]

theorem stripNonDigits_id (ds : List Char) (hd : ∀ c ∈ ds, isDigitChar c = true) :
    stripNonDigits ds = ds :=
  List.filter_eq_self.mpr hd

theorem cc_accept (ds : List Char) (hd : ∀ c ∈ ds, isDigitChar c = true)
    (h13 : 13 ≤ ds.length) (h16 : ds.length ≤ 16) :
    acceptSpans ("credit_card") ds 10 [(0, ds.length)] 0
      = if luhn_check ds = true then [(0, ds.length)] else [] := by
  have hsa : spanAccepted ("credit_card") ds 0 ds.length = luhn_check ds := by
    unfold spanAccepted
    rw [if_pos (by decide)]
    rw [pySlice_full, stripNonDigits_id ds hd]
    rw [if_neg (by simp; omega)]
  unfold acceptSpans
  rw [if_neg (by omega), hsa]
  by_cases hl : luhn_check ds = true
  · rw [if_pos hl, if_pos hl]
    rfl
  · rw [if_neg hl, if_neg hl]
    rfl

theorem detectKindRaw_cc_digits (ds : List Char) (hd : ∀ c ∈ ds, isDigitChar c = true)
    (h13 : 13 ≤ ds.length) (h16 : ds.length ≤ 16) :
    detectKindRaw ds 10 50 ("credit_card") creditCardRe
      = (if referenceLuhn ds = true then
          [({ detector := "credit_card",
              masked_match := ("****-****-****-").data ++ lastN 4 ds,
              context := ds, byte_offset := 0 }, ds)]
         else []) := by
  unfold detectKindRaw
  rw [finditer_cc ds hd h13 h16, cc_accept ds hd h13 h16, luhn_eq_reference ds hd h13]
  by_cases hl : referenceLuhn ds = true
  · rw [if_pos hl, if_pos hl]
    simp only [List.map_cons, List.map_nil]
    unfold findingOf
    have hslice : pySlice ds 0 ds.length = ds := pySlice_full ds
    have hctx : pySlice ds (0 - 50) (min ds.length (ds.length + 50)) = ds := by
      rw [show (0 : Nat) - 50 = 0 from rfl,
        show min ds.length (ds.length + 50) = ds.length by omega]
      exact hslice
    have hmask : maskFor ("credit_card") ds = ("****-****-****-").data ++ lastN 4 ds := by
      unfold maskFor
      rw [if_neg (by decide), if_pos (by decide), if_pos (by omega)]
    simp only [hslice, hctx, hmask]
  · rw [if_neg hl, if_neg hl]
    rfl

/-- C2 (amended): for every text consisting solely of a run of 13-16
digits (no separators), `detect` emits exactly one `credit_card` finding —
at offset 0, spanning the whole run, with its raw matched text equal to
the run — when the digits pass the Luhn mod-10 check in its reference
formulation (rightmost digit untouched, every second digit doubled and
digit-summed, total divisible by ten), and zero `credit_card` findings
when they fail it.  On texts with separators or adjacent word characters
the claim fails, see the counterexample. -/
theorem detect_credit_card_digit_run (ds : List Char) (hd : ∀ c ∈ ds, isDigitChar c = true)
    (h13 : 13 ≤ ds.length) (h16 : ds.length ≤ 16) :
    ((detectRaw ds 10 50).filter (fun p => p.1.detector == "credit_card"))
        = (if referenceLuhn ds = true then
            [({ detector := "credit_card",
                masked_match := ("****-****-****-").data ++ lastN 4 ds,
                context := ds, byte_offset := 0 }, ds)]
           else []) ∧
    ((detect ds 10 50).filter (fun f => f.detector == "credit_card"))
        = (if referenceLuhn ds = true then
            [{ detector := "credit_card",
               masked_match := ("****-****-****-").data ++ lastN 4 ds,
               context := ds, byte_offset := 0 }]
           else []) := by
  have hfr : (detectRaw ds 10 50).filter (fun p => p.1.detector == "credit_card")
      = detectKindRaw ds 10 50 ("credit_card") creditCardRe := by
    rw [detectRaw_eq]
    simp only [List.filter_append]
    rw [filter_kind_ne _ _ _ _ _ _ (by decide), filter_kind_self,
      filter_kind_ne _ _ _ _ _ _ (by decide), filter_kind_ne _ _ _ _ _ _ (by decide),
      filter_kind_ne _ _ _ _ _ _ (by decide), filter_kind_ne _ _ _ _ _ _ (by decide)]
    simp
  constructor
  · rw [hfr, detectKindRaw_cc_digits ds hd h13 h16]
  · have hmap : (detect ds 10 50).filter (fun f => f.detector == "credit_card")
        = ((detectRaw ds 10 50).filter
            ((fun f => f.detector == "credit_card") ∘ Prod.fst)).map Prod.fst := by
      simp [detect, List.filter_map]
    rw [hmap]
    rw [show ((fun f => f.detector == "credit_card") ∘ Prod.fst :
        Finding × List Char → Bool) = (fun p => p.1.detector == "credit_card") from rfl]
    rw [hfr, detectKindRaw_cc_digits ds hd h13 h16]
    by_cases hl : referenceLuhn ds = true
    · rw [if_pos hl, if_pos hl]
      rfl
    · rw [if_neg hl, if_neg hl]
      rfl

/-- Witness for C2 (amended) at the Luhn-valid run `4111111111111111`. -/
theorem detect_credit_card_digit_run_witness :
    ((detectRaw (("4111111111111111").data) 10 50).filter
        (fun p => p.1.detector == "credit_card"))
        = (if referenceLuhn (("4111111111111111").data) = true then
            [({ detector := "credit_card",
                masked_match := ("****-****-****-").data ++ lastN 4 (("4111111111111111").data),
                context := ("4111111111111111").data, byte_offset := 0 },
              ("4111111111111111").data)]
           else []) ∧
    ((detect (("4111111111111111").data) 10 50).filter
        (fun f => f.detector == "credit_card"))
        = (if referenceLuhn (("4111111111111111").data) = true then
            [{ detector := "credit_card",
               masked_match := ("****-****-****-").data ++ lastN 4 (("4111111111111111").data),
               context := ("4111111111111111").data, byte_offset := 0 }]
           else []) :=
  detect_credit_card_digit_run (("4111111111111111").data) (by decide) (by decide) (by decide)

/-- Counterexample to C2 as stated: the text `4111111111111 111` contains
a single run of 16 digits with one space separator whose stripped digits
`4111111111111111` pass the reference Luhn check, yet `detect` emits zero
`credit_card` findings: the backtracking engine stops the match at the
word boundary after the 13th digit (before the separator), and the
13-digit prefix fails Luhn and is skipped. -/
theorem detect_credit_card_sep_run_missed :
    ((detect (("4111111111111 111").data) 10 50).filter
        (fun f => f.detector == "credit_card")) = [] ∧
    stripNonDigits (("4111111111111 111").data) = ("4111111111111111").data ∧
    ((("4111111111111111").data).length = 16 ∧
      referenceLuhn (("4111111111111111").data) = true) := by
  refine ⟨by decide, by decide, by decide, by decide⟩

end StracDemo
